import Mathlib

/-!
Shallow embedding of the pace.rs ACE/PACE library, with proofs about the
interpolation engine, the angular-distribution samplers, the TYR/LAND/AND
block coherence, the header parsers and the ACE→PACE byte-level round trip.

Numeric modelling: `f64` values are modelled as rationals (`ℚ`) wherever the
source only compares, adds, multiplies or divides them, so that every branch
of the embedded control flow is decidable and executable; the transcendental
interpolation formulas (`exp`, `ln`, `log10`) are evaluated in `ℝ` with the
rational inputs coerced.  Where the source reinterprets the raw bits of an
8-byte word (the PACE writer and reader), values are modelled by their bit
patterns as natural numbers.

Failure modelling: Rust `Result::Err` returns and Rust panics
(`panic!`, `todo!`, out-of-bounds indexing, `unwrap` on `None`/`Err`,
`usize` underflow) are distinct outcomes, since several claims distinguish
recoverable errors from crashes.
-/

namespace Pace

/-- Outcome of running a fallible piece of Rust code: a normal return value,
a recoverable error return (`Result::Err`), or a panic. -/
inductive Outcome (α : Type) where
  | ok (val : α)
  | fail (msg : String)
  | crash (msg : String)
deriving DecidableEq

/-- True exactly on the `ok` outcome. -/
def Outcome.isOk {α : Type} : Outcome α → Bool
  | .ok _ => true
  | _ => false

/-- True exactly on the recoverable-error outcome. -/
def Outcome.isFail {α : Type} : Outcome α → Bool
  | .fail _ => true
  | _ => false

/-- Interpolation schemes from the ENDF standard
(`interpolation_scheme.rs`, identical in both source revisions). -/
inductive InterpolationScheme where
  | Histogram
  | LinLin
  | LinLog
  | LogLin
  | LogLog
  | Gamow
deriving DecidableEq

/-- `impl From<usize> for InterpolationScheme`: values 1..6 map to the six
schemes, anything else panics. -/
def InterpolationScheme.fromNat (value : Nat) : Outcome InterpolationScheme :=
  match value with
  | 1 => .ok .Histogram
  | 2 => .ok .LinLin
  | 3 => .ok .LinLog
  | 4 => .ok .LogLin
  | 5 => .ok .LogLog
  | 6 => .ok .Gamow
  | _ => .crash "Invalid interpolation scheme"

/-- X/Y pair for interpolation (`struct XY` in `interpolation_table.rs`). -/
structure XY where
  x : ℚ
  y : ℚ
deriving DecidableEq

/-- Interpolation region: a set of X/Y pairs together with the scheme used
inside the region (`struct InterpolationRegion`). -/
structure InterpolationRegion where
  data : List XY
  interpolation_scheme : InterpolationScheme
deriving DecidableEq

/-- Interpolation table: an ordered sequence of interpolation regions
(`struct InterpolationTable ( pub Vec<InterpolationRegion> )`). -/
structure InterpolationTable where
  regions : List InterpolationRegion
deriving DecidableEq

/-- Model of Rust `slice::binary_search_by` through its documented contract
on slices sorted by `x`: `.inl i` when the element at `i` has `x`-coordinate
exactly `x` (for a strictly sorted slice this is the unique such index),
otherwise `.inr i` where `i` is the insertion point, i.e. the number of
elements with `x`-coordinate strictly below `x`. -/
def binSearch (data : List XY) (x : ℚ) : Nat ⊕ Nat :=
  let i := data.countP (fun p => decide (p.x < x))
  match data[i]? with
  | some p => if p.x = x then Sum.inl i else Sum.inr i
  | none => Sum.inr i

/-- The region-locating loop of `InterpolationTable::interpolate`:
`self.iter().find(|region| region.data[0].x <= x_val && x_val <= region.data.iter().last().unwrap().x)`.
Indexing `data[0]` of an empty region panics, which the model reproduces at
the same evaluation point; exhausting the list yields the
"region not found" error that `ok_or_else` turns into an `Err`. -/
def findRegion (x_val : ℚ) : List InterpolationRegion → Outcome InterpolationRegion
  | [] => .fail "Interpolation region for x not found"
  | r :: rest =>
    match r.data with
    | [] => .crash "index out of bounds"
    | first :: more =>
      if first.x ≤ x_val ∧ x_val ≤ ((first :: more).getLast (List.cons_ne_nil _ _)).x then
        .ok r
      else
        findRegion x_val rest

/-- Body of `InterpolationTable::interpolate` once the containing region has
been located: binary search for the bin, early exact-node return, then the
per-scheme interpolation arithmetic.  `Gamow` hits `todo!("Gamow interpolation")`,
which is a panic, and an exhausted `ins - 1` or `get(idx + 1).unwrap()` would
also panic. -/
noncomputable def regionInterpolate (region : InterpolationRegion) (x_val : ℚ) : Outcome ℝ :=
  match binSearch region.data x_val with
  | Sum.inl idx =>
    match region.data[idx]? with
    | some p => .ok (p.y : ℝ)
    | none => .crash "index out of bounds"
  | Sum.inr ins =>
    if ins = 0 then .crash "attempt to subtract with overflow"
    else
      let idx := ins - 1
      match region.data[idx]?, region.data[idx + 1]? with
      | some start, some stop =>
        let x0 : ℝ := (start.x : ℝ)
        let x1 : ℝ := (stop.x : ℝ)
        let y0 : ℝ := (start.y : ℝ)
        let y1 : ℝ := (stop.y : ℝ)
        match region.interpolation_scheme with
        | .Histogram => .ok y0
        | .LinLin => .ok (y0 + (y1 - y0) * ((x_val : ℝ) - x0) / (x1 - x0))
        | .LinLog =>
            .ok (y0 + (y1 - y0) * (Real.logb 10 (x_val : ℝ) - Real.logb 10 x0) /
              (Real.logb 10 x1 - Real.logb 10 x0))
        | .LogLin => .ok (y0 * Real.exp (((x_val : ℝ) - x0) * Real.log (y1 / y0) / (x1 - x0)))
        | .LogLog =>
            .ok (y0 * Real.exp (Real.log ((x_val : ℝ) / x0) * Real.log (y1 / y0) /
              Real.log (x1 / x0)))
        | .Gamow => .crash "not yet implemented: Gamow interpolation"
      | _, _ => .crash "called Option.unwrap on a None value"

/-- Region lookup followed by in-region interpolation, the body of
`InterpolationTable::interpolate` after the empty-table guard. -/
noncomputable def interpolateRegions (rs : List InterpolationRegion) (x_val : ℚ) :
    Outcome ℝ :=
  match findRegion x_val rs with
  | .ok region => regionInterpolate region x_val
  | .fail m => .fail m
  | .crash m => .crash m

/-- `InterpolationTable::interpolate`: reject an empty table, locate the
containing region, then interpolate inside it. -/
noncomputable def InterpolationTable.interpolate (t : InterpolationTable) (x_val : ℚ) :
    Outcome ℝ :=
  if t.regions.length < 1 then .fail "Invalid interpolation table: empty"
  else interpolateRegions t.regions x_val

/-- Strict ordering of the `x`-coordinates along a region's data,
as the ACE grammar guarantees for parsed tables. -/
def StrictlyAscending (l : List XY) : Prop :=
  List.Chain' (fun a b => a.x < b.x) l

instance : IsTrans XY (fun a b => a.x < b.x) :=
  ⟨fun _ _ _ hab hbc => lt_trans hab hbc⟩

instance : DecidableRel (fun (a b : XY) => a.x < b.x) :=
  fun a b => inferInstanceAs (Decidable (a.x < b.x))

instance (l : List XY) : Decidable (StrictlyAscending l) :=
  inferInstanceAs (Decidable (List.Chain' _ l))

theorem ascending_get_lt {l : List XY} (hs : StrictlyAscending l) {i j : Nat}
    (hij : i < j) {pi pj : XY} (hi : l[i]? = some pi) (hj : l[j]? = some pj) :
    pi.x < pj.x := by
  have hpair : List.Pairwise (fun a b => a.x < b.x) l :=
    List.chain'_iff_pairwise.mp hs
  obtain ⟨hilen, hig⟩ := List.getElem?_eq_some.mp hi
  obtain ⟨hjlen, hjg⟩ := List.getElem?_eq_some.mp hj
  have := List.pairwise_iff_get.mp hpair ⟨i, hilen⟩ ⟨j, hjlen⟩ hij
  simpa [List.get_eq_getElem, hig, hjg] using this

theorem ascending_get_le {l : List XY} (hs : StrictlyAscending l) {i j : Nat}
    (hij : i ≤ j) {pi pj : XY} (hi : l[i]? = some pi) (hj : l[j]? = some pj) :
    pi.x ≤ pj.x := by
  rcases Nat.lt_or_ge i j with h | h
  · exact le_of_lt (ascending_get_lt hs h hi hj)
  · have : i = j := le_antisymm hij h
    subst this
    rw [hi] at hj
    cases hj
    exact le_refl _

theorem countP_eq_of_cut {α : Type} (p : α → Bool) :
    ∀ (l : List α) (c : Nat), c ≤ l.length →
      (∀ j a, j < c → l[j]? = some a → p a = true) →
      (∀ j a, c ≤ j → l[j]? = some a → p a = false) →
      l.countP p = c := by
  intro l
  induction l with
  | nil =>
    intro c hc _ _
    have hc0 : c = 0 := Nat.le_zero.mp (by simpa using hc)
    subst hc0
    simp
  | cons a tl ih =>
    intro c hc htrue hfalse
    cases c with
    | zero =>
      have ha : p a = false := hfalse 0 a (Nat.le_refl 0) (by simp)
      have htl : tl.countP p = 0 := by
        refine ih 0 (Nat.zero_le _) (fun j b hj => absurd hj (Nat.not_lt_zero j)) ?_
        intro j b _ hjb
        exact hfalse (j + 1) b (Nat.zero_le _) (by simpa using hjb)
      simp [List.countP_cons, ha, htl]
    | succ c =>
      have ha : p a = true := htrue 0 a (Nat.succ_pos c) (by simp)
      have htl : tl.countP p = c := by
        refine ih c (by simpa using hc) ?_ ?_
        · intro j b hj hjb
          exact htrue (j + 1) b (Nat.succ_lt_succ hj) (by simpa using hjb)
        · intro j b hj hjb
          exact hfalse (j + 1) b (Nat.succ_le_succ hj) (by simpa using hjb)
      simp [List.countP_cons, ha, htl]

theorem binSearch_eq_inl {data : List XY} {x : ℚ} {c : Nat} {p : XY}
    (hcount : data.countP (fun q => decide (q.x < x)) = c)
    (hc : data[c]? = some p) (hpx : p.x = x) :
    binSearch data x = Sum.inl c := by
  simp [binSearch, hcount, hc, hpx]

theorem binSearch_eq_inr {data : List XY} {x : ℚ} {c : Nat} {p : XY}
    (hcount : data.countP (fun q => decide (q.x < x)) = c)
    (hc : data[c]? = some p) (hpx : p.x ≠ x) :
    binSearch data x = Sum.inr c := by
  simp [binSearch, hcount, hc, hpx]

theorem findRegion_cons_of_match {x : ℚ} {r : InterpolationRegion}
    (rest : List InterpolationRegion) {f l : XY}
    (hhead : r.data.head? = some f) (hlast : r.data.getLast? = some l)
    (hcond : f.x ≤ x ∧ x ≤ l.x) :
    findRegion x (r :: rest) = .ok r := by
  obtain ⟨first, more, hd⟩ : ∃ first more, r.data = first :: more := by
    cases hdata : r.data with
    | nil => rw [hdata] at hhead; cases hhead
    | cons a tl => exact ⟨a, tl, rfl⟩
  have hf : f = first := by
    rw [hd] at hhead
    simpa using hhead.symm
  have hl : (first :: more).getLast (List.cons_ne_nil _ _) = l := by
    have := List.getLast?_eq_getLast (first :: more) (List.cons_ne_nil _ _)
    rw [hd] at hlast
    rw [this] at hlast
    exact (Option.some_inj.mp hlast)
  subst hf
  simp only [findRegion, hd]
  rw [if_pos]
  rw [hl]
  exact hcond

theorem findRegion_cons_of_skip {x : ℚ} {r : InterpolationRegion}
    (rest : List InterpolationRegion) {f l : XY}
    (hhead : r.data.head? = some f) (hlast : r.data.getLast? = some l)
    (hcond : ¬ (f.x ≤ x ∧ x ≤ l.x)) :
    findRegion x (r :: rest) = findRegion x rest := by
  obtain ⟨first, more, hd⟩ : ∃ first more, r.data = first :: more := by
    cases hdata : r.data with
    | nil => rw [hdata] at hhead; cases hhead
    | cons a tl => exact ⟨a, tl, rfl⟩
  have hf : f = first := by
    rw [hd] at hhead
    simpa using hhead.symm
  have hl : (first :: more).getLast (List.cons_ne_nil _ _) = l := by
    have := List.getLast?_eq_getLast (first :: more) (List.cons_ne_nil _ _)
    rw [hd] at hlast
    rw [this] at hlast
    exact (Option.some_inj.mp hlast)
  subst hf
  simp only [findRegion, hd]
  rw [if_neg]
  rw [hl]
  exact hcond

theorem findRegion_eq_ok (x : ℚ) :
    ∀ (rs : List InterpolationRegion) (k : Nat) (r : InterpolationRegion),
      rs[k]? = some r →
      (∀ j rj, j < k → rs[j]? = some rj →
        ∃ f l, rj.data.head? = some f ∧ rj.data.getLast? = some l ∧
          ¬ (f.x ≤ x ∧ x ≤ l.x)) →
      (∃ f, r.data.head? = some f ∧ f.x ≤ x) →
      (∃ l, r.data.getLast? = some l ∧ x ≤ l.x) →
      findRegion x rs = .ok r := by
  intro rs
  induction rs with
  | nil =>
    intro k r hk _ _ _
    simp at hk
  | cons r0 rest ih =>
    intro k r hk hskip hhead hlast
    cases k with
    | zero =>
      have hr : r0 = r := by simpa using hk
      subst hr
      obtain ⟨f, hf, hfx⟩ := hhead
      obtain ⟨l, hlg, hlx⟩ := hlast
      exact findRegion_cons_of_match rest hf hlg ⟨hfx, hlx⟩
    | succ k =>
      obtain ⟨f, l, hf, hlg, hcond⟩ := hskip 0 r0 (Nat.succ_pos k) (by simp)
      rw [findRegion_cons_of_skip rest hf hlg hcond]
      refine ih k r (by simpa using hk) ?_ hhead hlast
      intro j rj hj hjr
      exact hskip (j + 1) rj (Nat.succ_lt_succ hj) (by simpa using hjr)

theorem interpolate_locates_bin
    (t : InterpolationTable) (k : Nat) (r : InterpolationRegion) (x : ℚ)
    (i : Nat) (p0 p1 : XY)
    (hk : t.regions[k]? = some r)
    (hskip : ∀ j rj, j < k → t.regions[j]? = some rj →
      ∃ f l, rj.data.head? = some f ∧ rj.data.getLast? = some l ∧
        ¬ (f.x ≤ x ∧ x ≤ l.x))
    (hsorted : StrictlyAscending r.data)
    (hp0 : r.data[i]? = some p0) (hp1 : r.data[i + 1]? = some p1)
    (hx0 : p0.x < x) (hx1 : x < p1.x) :
    t.interpolate x = regionInterpolate r x ∧
      binSearch r.data x = Sum.inr (i + 1) := by
  obtain ⟨hi1len, _⟩ := List.getElem?_eq_some.mp hp1
  have h0len : 0 < r.data.length := lt_of_le_of_lt (Nat.zero_le _) hi1len
  have hklen : k < t.regions.length := (List.getElem?_eq_some.mp hk).1
  have hlen : ¬ t.regions.length < 1 := by omega
  -- The head of the region is below x and its last point is at or above x.
  have hhead0 : r.data[0]? = some r.data[0] := List.getElem?_eq_getElem h0len
  have hheadle : r.data[0].x ≤ x :=
    le_of_lt (lt_of_le_of_lt (ascending_get_le hsorted (Nat.zero_le i) hhead0 hp0) hx0)
  have hlastlen : r.data.length - 1 < r.data.length := by omega
  have hlastg : r.data[r.data.length - 1]? = some r.data[r.data.length - 1] :=
    List.getElem?_eq_getElem hlastlen
  have hlastge : x ≤ r.data[r.data.length - 1].x :=
    le_of_lt (lt_of_lt_of_le hx1 (ascending_get_le hsorted (by omega) hp1 hlastg))
  have hfind : findRegion x t.regions = .ok r := by
    refine findRegion_eq_ok x t.regions k r hk hskip ?_ ?_
    · exact ⟨r.data[0], by rw [List.head?_eq_getElem?]; exact hhead0, hheadle⟩
    · exact ⟨r.data[r.data.length - 1],
        by rw [List.getLast?_eq_getElem?]; exact hlastg, hlastge⟩
  have hcount : r.data.countP (fun q => decide (q.x < x)) = i + 1 := by
    refine countP_eq_of_cut _ r.data (i + 1) (le_of_lt hi1len) ?_ ?_
    · intro j a hj hja
      have : a.x ≤ p0.x := ascending_get_le hsorted (by omega) hja hp0
      simpa using lt_of_le_of_lt this hx0
    · intro j a hj hja
      have : p1.x ≤ a.x := ascending_get_le hsorted hj hp1 hja
      simpa using not_lt_of_le (le_trans (le_of_lt hx1) this)
  have hbin : binSearch r.data x = Sum.inr (i + 1) :=
    binSearch_eq_inr hcount hp1 (ne_of_gt hx1)
  constructor
  · simp only [InterpolationTable.interpolate, if_neg hlen, interpolateRegions, hfind]
  · exact hbin

/-- C2: for every interpolation table and every `x` strictly inside a bin
`(x0, x1)` of its containing region, `interpolate` returns the value of that
region's scheme formula: Histogram returns `y0`; LinLin is linear in both
axes; LinLog is linear in `y` and log-base-10 in `x`; LogLin is
`y0 · exp((x − x0) · ln(y1/y0)/(x1 − x0))`; LogLog is
`y0 · exp(ln(x/x0) · ln(y1/y0)/ln(x1/x0))`. -/
theorem interpolate_strict_inside_bin
    (t : InterpolationTable) (k : Nat) (r : InterpolationRegion) (x : ℚ)
    (i : Nat) (p0 p1 : XY)
    (hk : t.regions[k]? = some r)
    (hskip : ∀ j rj, j < k → t.regions[j]? = some rj →
      ∃ f l, rj.data.head? = some f ∧ rj.data.getLast? = some l ∧
        ¬ (f.x ≤ x ∧ x ≤ l.x))
    (hsorted : StrictlyAscending r.data)
    (hp0 : r.data[i]? = some p0) (hp1 : r.data[i + 1]? = some p1)
    (hx0 : p0.x < x) (hx1 : x < p1.x)
    (hG : r.interpolation_scheme ≠ .Gamow) :
    t.interpolate x =
      .ok (match r.interpolation_scheme with
        | .Histogram => (p0.y : ℝ)
        | .LinLin =>
            (p0.y : ℝ) + ((p1.y : ℝ) - (p0.y : ℝ)) * ((x : ℝ) - (p0.x : ℝ)) /
              ((p1.x : ℝ) - (p0.x : ℝ))
        | .LinLog =>
            (p0.y : ℝ) + ((p1.y : ℝ) - (p0.y : ℝ)) *
              (Real.logb 10 (x : ℝ) - Real.logb 10 (p0.x : ℝ)) /
              (Real.logb 10 (p1.x : ℝ) - Real.logb 10 (p0.x : ℝ))
        | .LogLin =>
            (p0.y : ℝ) * Real.exp (((x : ℝ) - (p0.x : ℝ)) *
              Real.log ((p1.y : ℝ) / (p0.y : ℝ)) / ((p1.x : ℝ) - (p0.x : ℝ)))
        | .LogLog =>
            (p0.y : ℝ) * Real.exp (Real.log ((x : ℝ) / (p0.x : ℝ)) *
              Real.log ((p1.y : ℝ) / (p0.y : ℝ)) /
              Real.log ((p1.x : ℝ) / (p0.x : ℝ)))
        | .Gamow => 0) := by
  obtain ⟨hit, hbin⟩ :=
    interpolate_locates_bin t k r x i p0 p1 hk hskip hsorted hp0 hp1 hx0 hx1
  rw [hit]
  simp only [regionInterpolate, hbin]
  rw [if_neg (Nat.succ_ne_zero i)]
  simp only [Nat.add_sub_cancel, hp0, hp1]
  cases hsch : r.interpolation_scheme with
  | Gamow => exact absurd hsch hG
  | Histogram => rfl
  | LinLin => rfl
  | LinLog => rfl
  | LogLin => rfl
  | LogLog => rfl

def c2Region : InterpolationRegion := ⟨[⟨0, 0⟩, ⟨10, 20⟩], .LinLin⟩

def c2Table : InterpolationTable := ⟨[c2Region]⟩

/-- Witness for C2 at the concrete single-region LinLin table over
`(0,0)-(10,20)` queried at `x = 5`. -/
theorem interpolate_strict_inside_bin_witness :
    c2Table.regions[0]? = some c2Region ∧
    StrictlyAscending c2Region.data ∧
    c2Region.data[0]? = some ⟨0, 0⟩ ∧
    c2Region.data[0 + 1]? = some ⟨10, 20⟩ ∧
    (XY.mk 0 0).x < (5 : ℚ) ∧ (5 : ℚ) < (XY.mk 10 20).x ∧
    c2Region.interpolation_scheme ≠ .Gamow ∧
    c2Table.interpolate 5 =
      .ok (match c2Region.interpolation_scheme with
        | .Histogram => ((XY.mk 0 0).y : ℝ)
        | .LinLin =>
            ((XY.mk 0 0).y : ℝ) + (((XY.mk 10 20).y : ℝ) - ((XY.mk 0 0).y : ℝ)) *
              (((5 : ℚ) : ℝ) - ((XY.mk 0 0).x : ℝ)) /
              (((XY.mk 10 20).x : ℝ) - ((XY.mk 0 0).x : ℝ))
        | .LinLog =>
            ((XY.mk 0 0).y : ℝ) + (((XY.mk 10 20).y : ℝ) - ((XY.mk 0 0).y : ℝ)) *
              (Real.logb 10 ((5 : ℚ) : ℝ) - Real.logb 10 ((XY.mk 0 0).x : ℝ)) /
              (Real.logb 10 ((XY.mk 10 20).x : ℝ) - Real.logb 10 ((XY.mk 0 0).x : ℝ))
        | .LogLin =>
            ((XY.mk 0 0).y : ℝ) * Real.exp ((((5 : ℚ) : ℝ) - ((XY.mk 0 0).x : ℝ)) *
              Real.log (((XY.mk 10 20).y : ℝ) / ((XY.mk 0 0).y : ℝ)) /
              (((XY.mk 10 20).x : ℝ) - ((XY.mk 0 0).x : ℝ)))
        | .LogLog =>
            ((XY.mk 0 0).y : ℝ) * Real.exp (Real.log (((5 : ℚ) : ℝ) / ((XY.mk 0 0).x : ℝ)) *
              Real.log (((XY.mk 10 20).y : ℝ) / ((XY.mk 0 0).y : ℝ)) /
              Real.log (((XY.mk 10 20).x : ℝ) / ((XY.mk 0 0).x : ℝ)))
        | .Gamow => 0) :=
  ⟨rfl, by simp [StrictlyAscending, c2Region], rfl, rfl, by decide, by decide, by decide,
    interpolate_strict_inside_bin c2Table 0 c2Region 5 0 ⟨0, 0⟩ ⟨10, 20⟩ rfl
      (fun j _ hj _ => absurd hj (Nat.not_lt_zero j))
      (by simp [StrictlyAscending, c2Region]) rfl rfl (by decide) (by decide) (by decide)⟩

/-- C9: interpolation on a table with zero regions returns the
"Invalid interpolation table: empty" error for every query; it never panics
and never produces a value. -/
theorem interpolate_empty_table (t : InterpolationTable) (h : t.regions = [])
    (x : ℚ) :
    t.interpolate x = .fail "Invalid interpolation table: empty" := by
  simp [InterpolationTable.interpolate, h]

/-- Witness for C9 at the concrete empty table queried at `x = 7`. -/
theorem interpolate_empty_table_witness :
    (InterpolationTable.mk []).regions = [] ∧
    (InterpolationTable.mk []).interpolate 7 =
      .fail "Invalid interpolation table: empty" :=
  ⟨rfl, interpolate_empty_table ⟨[]⟩ rfl 7⟩

def gamowRegion : InterpolationRegion := ⟨[⟨0, 2⟩, ⟨10, 5⟩], .Gamow⟩

def gamowTable : InterpolationTable := ⟨[gamowRegion]⟩

/-- Counterexample to C6: interpolating strictly inside a Gamow-scheme bin
does not return a recoverable `Unsupported` error; it hits
`todo!("Gamow interpolation")`, which is a panic. -/
theorem gamow_panics_counterexample :
    gamowTable.interpolate 5 = .crash "not yet implemented: Gamow interpolation" ∧
    (gamowTable.interpolate 5).isFail = false :=
  ⟨rfl, rfl⟩

/-- C6 amended: for every table containing a region with the Gamow scheme and
every `x` strictly inside one of that region's bins, `interpolate` panics via
`todo!("Gamow interpolation")` (a crash, not a recoverable error return). -/
theorem interpolate_gamow_bin
    (t : InterpolationTable) (k : Nat) (r : InterpolationRegion) (x : ℚ)
    (i : Nat) (p0 p1 : XY)
    (hk : t.regions[k]? = some r)
    (hskip : ∀ j rj, j < k → t.regions[j]? = some rj →
      ∃ f l, rj.data.head? = some f ∧ rj.data.getLast? = some l ∧
        ¬ (f.x ≤ x ∧ x ≤ l.x))
    (hsorted : StrictlyAscending r.data)
    (hp0 : r.data[i]? = some p0) (hp1 : r.data[i + 1]? = some p1)
    (hx0 : p0.x < x) (hx1 : x < p1.x)
    (hG : r.interpolation_scheme = .Gamow) :
    t.interpolate x = .crash "not yet implemented: Gamow interpolation" := by
  obtain ⟨hit, hbin⟩ :=
    interpolate_locates_bin t k r x i p0 p1 hk hskip hsorted hp0 hp1 hx0 hx1
  rw [hit]
  simp only [regionInterpolate, hbin]
  rw [if_neg (Nat.succ_ne_zero i)]
  simp only [Nat.add_sub_cancel, hp0, hp1, hG]

/-- Witness for the amended C6 at the concrete Gamow table over
`(0,2)-(10,5)` queried at `x = 5`. -/
theorem interpolate_gamow_bin_witness :
    gamowTable.regions[0]? = some gamowRegion ∧
    StrictlyAscending gamowRegion.data ∧
    gamowRegion.data[0]? = some ⟨0, 2⟩ ∧
    gamowRegion.data[0 + 1]? = some ⟨10, 5⟩ ∧
    (XY.mk 0 2).x < (5 : ℚ) ∧ (5 : ℚ) < (XY.mk 10 5).x ∧
    gamowRegion.interpolation_scheme = .Gamow ∧
    gamowTable.interpolate 5 = .crash "not yet implemented: Gamow interpolation" :=
  ⟨rfl, by simp [StrictlyAscending, gamowRegion], rfl, rfl, by decide, by decide, rfl,
    interpolate_gamow_bin gamowTable 0 gamowRegion 5 0 ⟨0, 2⟩ ⟨10, 5⟩ rfl
      (fun j _ hj _ => absurd hj (Nat.not_lt_zero j))
      (by simp [StrictlyAscending, gamowRegion]) rfl rfl (by decide) (by decide) rfl⟩

theorem head?_of_ne_nil {r : InterpolationRegion} (h : r.data ≠ []) :
    ∃ f, r.data.head? = some f := by
  cases hd : r.data with
  | nil => exact absurd hd h
  | cons a l => exact ⟨a, by simp [hd]⟩

theorem regionInterpolate_at_node (r : InterpolationRegion)
    (hs : StrictlyAscending r.data) {i : Nat} {p : XY}
    (hp : r.data[i]? = some p) :
    regionInterpolate r p.x = .ok (p.y : ℝ) := by
  have hilen : i < r.data.length := (List.getElem?_eq_some.mp hp).1
  have hcount : r.data.countP (fun q => decide (q.x < p.x)) = i := by
    refine countP_eq_of_cut _ r.data i (le_of_lt hilen) ?_ ?_
    · intro j a hj hja
      simpa using ascending_get_lt hs hj hja hp
    · intro j a hj hja
      simpa using not_lt_of_le (ascending_get_le hs hj hp hja)
  have hbin : binSearch r.data p.x = Sum.inl i := binSearch_eq_inl hcount hp rfl
  simp only [regionInterpolate, hbin, hp]

/-- Any node of any region in a chained region list sits at or above the
head point of the first region. -/
theorem node_ge_head :
    ∀ (rs : List InterpolationRegion),
      (∀ r ∈ rs, r.data ≠ []) →
      (∀ r ∈ rs, StrictlyAscending r.data) →
      List.Chain' (fun a b => a.data.getLast? = b.data.head?) rs →
      ∀ (k : Nat) (r : InterpolationRegion), rs[k]? = some r →
      ∀ (i : Nat) (p : XY), r.data[i]? = some p →
      ∀ (r0 : InterpolationRegion) (f : XY),
        rs.head? = some r0 → r0.data.head? = some f → f.x ≤ p.x := by
  intro rs
  induction rs with
  | nil =>
    intro _ _ _ k r hk
    simp at hk
  | cons r0 rest ih =>
    intro hne hsort hchain k r hk i p hp rh f hrh hf
    have hrh0 : r0 = rh := by simpa using hrh
    subst hrh0
    cases k with
    | zero =>
      have hra : r0 = r := by simpa using hk
      subst hra
      have hf0 : r0.data[0]? = some f := by rwa [List.head?_eq_getElem?] at hf
      exact ascending_get_le (hsort r0 (by simp)) (Nat.zero_le i) hf0 hp
    | succ k =>
      have hkrest : rest[k]? = some r := by simpa using hk
      cases rest with
      | nil => simp at hkrest
      | cons r1 rest2 =>
        obtain ⟨hlink, htail⟩ := List.chain'_cons.mp hchain
        obtain ⟨f1, hf1⟩ := head?_of_ne_nil (hne r1 (by simp))
        have hf1p : f1.x ≤ p.x := by
          refine ih ?_ ?_ htail k r hkrest i p hp r1 f1 (by simp) hf1
          · intro rr hrr
            exact hne rr (List.mem_cons_of_mem _ hrr)
          · intro rr hrr
            exact hsort rr (List.mem_cons_of_mem _ hrr)
        -- head of r0 is at or below its last point, which is the head of r1
        have hlast : r0.data.getLast? = some f1 := by rw [hlink]; exact hf1
        have hlast0 : r0.data[r0.data.length - 1]? = some f1 := by
          rwa [List.getLast?_eq_getElem?] at hlast
        have hf0 : r0.data[0]? = some f := by rwa [List.head?_eq_getElem?] at hf
        have hfle : f.x ≤ f1.x :=
          ascending_get_le (hsort r0 (by simp)) (Nat.zero_le _) hf0 hlast0
        exact le_trans hfle hf1p

/-- A node of a chained region list whose `x`-coordinate is at or below the
head point of the first region coincides with that head point. -/
theorem node_pinned :
    ∀ (rs : List InterpolationRegion),
      (∀ r ∈ rs, r.data ≠ []) →
      (∀ r ∈ rs, StrictlyAscending r.data) →
      List.Chain' (fun a b => a.data.getLast? = b.data.head?) rs →
      ∀ (k : Nat) (r : InterpolationRegion), rs[k]? = some r →
      ∀ (i : Nat) (p : XY), r.data[i]? = some p →
      ∀ (r0 : InterpolationRegion) (f : XY),
        rs.head? = some r0 → r0.data.head? = some f → p.x ≤ f.x → f = p := by
  intro rs
  induction rs with
  | nil =>
    intro _ _ _ k r hk
    simp at hk
  | cons r0 rest ih =>
    intro hne hsort hchain k r hk i p hp rh f hrh hf hle
    have hrh0 : r0 = rh := by simpa using hrh
    subst hrh0
    cases k with
    | zero =>
      have hra : r0 = r := by simpa using hk
      subst hra
      have hf0 : r0.data[0]? = some f := by rwa [List.head?_eq_getElem?] at hf
      cases i with
      | zero =>
        rw [hf0] at hp
        exact Option.some_inj.mp hp
      | succ i =>
        have : f.x < p.x :=
          ascending_get_lt (hsort r0 (by simp)) (Nat.succ_pos i) hf0 hp
        exact absurd hle (not_le_of_lt this)
    | succ k =>
      have hkrest : rest[k]? = some r := by simpa using hk
      cases rest with
      | nil => simp at hkrest
      | cons r1 rest2 =>
        obtain ⟨hlink, htail⟩ := List.chain'_cons.mp hchain
        obtain ⟨f1, hf1⟩ := head?_of_ne_nil (hne r1 (by simp))
        have hnerest : ∀ rr ∈ r1 :: rest2, rr.data ≠ [] :=
          fun rr hrr => hne rr (List.mem_cons_of_mem _ hrr)
        have hsortrest : ∀ rr ∈ r1 :: rest2, StrictlyAscending rr.data :=
          fun rr hrr => hsort rr (List.mem_cons_of_mem _ hrr)
        have hf1p : f1.x ≤ p.x :=
          node_ge_head _ hnerest hsortrest htail k r hkrest i p hp r1 f1 (by simp) hf1
        have hlast : r0.data.getLast? = some f1 := by rw [hlink]; exact hf1
        have hlast0 : r0.data[r0.data.length - 1]? = some f1 := by
          rwa [List.getLast?_eq_getElem?] at hlast
        have hf0 : r0.data[0]? = some f := by rwa [List.head?_eq_getElem?] at hf
        have hfle : f.x ≤ f1.x :=
          ascending_get_le (hsort r0 (by simp)) (Nat.zero_le _) hf0 hlast0
        -- all of p.x, f.x, f1.x coincide
        have hxeq : f.x = f1.x := le_antisymm hfle (le_trans hf1p hle)
        have hplef1 : p.x ≤ f1.x := le_trans hle hfle
        have hf1p' : f1 = p :=
          ih hnerest hsortrest htail k r hkrest i p hp r1 f1 (by simp) hf1 hplef1
        -- r0's head and last have equal x, so by strict ordering they coincide
        have hlen0 : 0 < r0.data.length := by
          have := (List.getElem?_eq_some.mp hf0).1
          omega
        have hidx : r0.data.length - 1 = 0 := by
          by_contra hne0
          have h0lt : 0 < r0.data.length - 1 := Nat.pos_of_ne_zero hne0
          have : f.x < f1.x :=
            ascending_get_lt (hsort r0 (by simp)) h0lt hf0 hlast0
          exact absurd hxeq (ne_of_lt this)
        have : f = f1 := by
          rw [hidx] at hlast0
          rw [hf0] at hlast0
          exact Option.some_inj.mp hlast0
        rw [this, hf1p']

/-- Node evaluation over a chained region list: the pipeline of
`findRegion` and `regionInterpolate` returns the stored `y` exactly. -/
theorem interpolateRegions_at_node :
    ∀ (rs : List InterpolationRegion),
      (∀ r ∈ rs, r.data ≠ []) →
      (∀ r ∈ rs, StrictlyAscending r.data) →
      List.Chain' (fun a b => a.data.getLast? = b.data.head?) rs →
      ∀ (k : Nat) (r : InterpolationRegion), rs[k]? = some r →
      ∀ (i : Nat) (p : XY), r.data[i]? = some p →
      interpolateRegions rs p.x = .ok (p.y : ℝ) := by
  intro rs
  induction rs with
  | nil =>
    intro _ _ _ k r hk
    simp at hk
  | cons r0 rest ih =>
    intro hne hsort hchain k r hk i p hp
    cases k with
    | zero =>
      have hra : r0 = r := by simpa using hk
      subst hra
      obtain ⟨f, hf⟩ := head?_of_ne_nil (hne r0 (by simp))
      have hf0 : r0.data[0]? = some f := by rwa [List.head?_eq_getElem?] at hf
      have hilen : i < r0.data.length := (List.getElem?_eq_some.mp hp).1
      have hlast0 : r0.data[r0.data.length - 1]? =
          some r0.data[r0.data.length - 1] :=
        List.getElem?_eq_getElem (by omega)
      have hlast : r0.data.getLast? = some r0.data[r0.data.length - 1] := by
        rw [List.getLast?_eq_getElem?]; exact hlast0
      have hfind : findRegion p.x (r0 :: rest) = .ok r0 := by
        refine findRegion_cons_of_match rest hf hlast ⟨?_, ?_⟩
        · exact ascending_get_le (hsort r0 (by simp)) (Nat.zero_le i) hf0 hp
        · exact ascending_get_le (hsort r0 (by simp)) (by omega) hp hlast0
      simp only [interpolateRegions, hfind]
      exact regionInterpolate_at_node r0 (hsort r0 (by simp)) hp
    | succ k =>
      have hkrest : rest[k]? = some r := by simpa using hk
      cases rest with
      | nil => simp at hkrest
      | cons r1 rest2 =>
        obtain ⟨hlink, htail⟩ := List.chain'_cons.mp hchain
        obtain ⟨f1, hf1⟩ := head?_of_ne_nil (hne r1 (by simp))
        have hnerest : ∀ rr ∈ r1 :: rest2, rr.data ≠ [] :=
          fun rr hrr => hne rr (List.mem_cons_of_mem _ hrr)
        have hsortrest : ∀ rr ∈ r1 :: rest2, StrictlyAscending rr.data :=
          fun rr hrr => hsort rr (List.mem_cons_of_mem _ hrr)
        obtain ⟨f0, hf0h⟩ := head?_of_ne_nil (hne r0 (by simp))
        have hlast : r0.data.getLast? = some f1 := by rw [hlink]; exact hf1
        by_cases hcond : f0.x ≤ p.x ∧ p.x ≤ f1.x
        · -- x coincides with the shared boundary node, which is r0's last point
          have hf1p : f1 = p :=
            node_pinned _ hnerest hsortrest htail k r hkrest i p hp r1 f1
              (by simp) hf1 hcond.2
          rw [hf1p] at hlast
          have hfind : findRegion p.x (r0 :: r1 :: rest2) = .ok r0 :=
            findRegion_cons_of_match _ hf0h hlast ⟨hcond.1, le_refl _⟩
          have hlast0 : r0.data[r0.data.length - 1]? = some p := by
            rwa [List.getLast?_eq_getElem?] at hlast
          simp only [interpolateRegions, hfind]
          exact regionInterpolate_at_node r0 (hsort r0 (by simp)) hlast0
        · have hskip : findRegion p.x (r0 :: r1 :: rest2) =
              findRegion p.x (r1 :: rest2) :=
            findRegion_cons_of_skip _ hf0h hlast hcond
          have := ih hnerest hsortrest htail k r hkrest i p hp
          simpa only [interpolateRegions, hskip] using this

/-- C3: for every well-formed interpolation table (regions non-empty with
strictly ascending abscissas, consecutive regions sharing their boundary
point) and every node `(xᵢ, yᵢ)` of any region, `interpolate(xᵢ)` returns
exactly the stored `yᵢ` via the early exact-match return of the binary
search, with no interpolation arithmetic performed. -/
theorem interpolate_at_node (t : InterpolationTable)
    (hne : ∀ r ∈ t.regions, r.data ≠ [])
    (hsort : ∀ r ∈ t.regions, StrictlyAscending r.data)
    (hchain : List.Chain' (fun a b => a.data.getLast? = b.data.head?) t.regions)
    (k : Nat) (r : InterpolationRegion) (hk : t.regions[k]? = some r)
    (i : Nat) (p : XY) (hp : r.data[i]? = some p) :
    t.interpolate p.x = .ok (p.y : ℝ) := by
  have hklen : k < t.regions.length := (List.getElem?_eq_some.mp hk).1
  have hlen : ¬ t.regions.length < 1 := by omega
  rw [InterpolationTable.interpolate, if_neg hlen]
  exact interpolateRegions_at_node t.regions hne hsort hchain k r hk i p hp

def c3Region0 : InterpolationRegion := ⟨[⟨0, 1⟩, ⟨10, 3⟩], .LinLin⟩

def c3Region1 : InterpolationRegion := ⟨[⟨10, 3⟩, ⟨20, 7⟩], .Histogram⟩

def c3Table : InterpolationTable := ⟨[c3Region0, c3Region1]⟩

/-- Witness for C3 at a concrete two-region chained table, evaluated at the
node `(20, 7)` of the second region. -/
theorem interpolate_at_node_witness :
    (∀ r ∈ c3Table.regions, r.data ≠ []) ∧
    (∀ r ∈ c3Table.regions, StrictlyAscending r.data) ∧
    List.Chain' (fun a b => a.data.getLast? = b.data.head?) c3Table.regions ∧
    c3Table.regions[1]? = some c3Region1 ∧
    c3Region1.data[1]? = some ⟨20, 7⟩ ∧
    c3Table.interpolate (XY.mk 20 7).x = .ok ((XY.mk 20 7).y : ℝ) :=
  ⟨by decide,
   by
     intro r hr
     simp [c3Table, c3Region0, c3Region1] at hr
     rcases hr with h | h <;> subst h <;>
       norm_num [StrictlyAscending, c3Region0, c3Region1],
   by simp [c3Table, c3Region0, c3Region1],
   rfl, rfl,
   interpolate_at_node c3Table
     (by decide)
     (by
       intro r hr
       simp [c3Table, c3Region0, c3Region1] at hr
       rcases hr with h | h <;> subst h <;>
         norm_num [StrictlyAscending, c3Region0, c3Region1])
     (by simp [c3Table, c3Region0, c3Region1])
     1 c3Region1 rfl 1 ⟨20, 7⟩ rfl⟩

/-- `InterpolationRegion::from_x_and_y`: panics when the two vectors differ
in length, otherwise zips them into XY pairs. -/
def InterpolationRegion.from_x_and_y (x y : List ℚ) (s : InterpolationScheme) :
    Outcome InterpolationRegion :=
  if x.length ≠ y.length then
    .crash "InterpolationRegion: x and y vectors must be of the same length"
  else .ok ⟨(x.zip y).map (fun q => ⟨q.1, q.2⟩), s⟩

/-- `InterpolationTable::from_x_and_y`: builds a single-region table; panics
when the two vectors differ in length. -/
def InterpolationTable.from_x_and_y (x y : List ℚ) (s : InterpolationScheme) :
    Outcome InterpolationTable :=
  if x.length ≠ y.length then
    .crash "InterpolationTable: a single region interpolation table must have x and y vectors of equal length"
  else
    match InterpolationRegion.from_x_and_y x y s with
    | .ok r => .ok ⟨[r]⟩
    | .fail m => .fail m
    | .crash m => .crash m

/-- `TabulatedAngularDistribution` wraps an interpolation table whose `x`
axis is the CDF and whose `y` axis is cos θ. -/
structure TabulatedAngularDistribution where
  table : InterpolationTable
deriving DecidableEq

/-- `TabulatedAngularDistribution::new`: rejects schemes other than
Histogram and LinLin, rejects vectors of different length, then builds the
CDF→cosθ table.  There is no emptiness check in the source. -/
def TabulatedAngularDistribution.new (interpolation_scheme : InterpolationScheme)
    (cos_theta_bins cos_theta_cdf : List ℚ) : Outcome TabulatedAngularDistribution :=
  if interpolation_scheme ≠ .Histogram ∧ interpolation_scheme ≠ .LinLin then
    .fail "TabulatedAngularDistribution: Unsupported interpolation scheme for tabulated angular distribution"
  else if cos_theta_bins.length ≠ cos_theta_cdf.length then
    .fail "TabulatedAngularDistribution: cos_theta_bins and cos_theta_cdf must be of the same length"
  else
    match InterpolationTable.from_x_and_y cos_theta_cdf cos_theta_bins interpolation_scheme with
    | .ok t => .ok ⟨t⟩
    | .fail m => .fail m
    | .crash m => .crash m

/-- `EquiprobableBinsAngularDistribution` wraps the LinLin table over the 33
sorted cos θ bin boundaries against the uniform CDF `{0, 1/32, …, 1}`. -/
structure EquiprobableBinsAngularDistribution where
  table : InterpolationTable
deriving DecidableEq

/-- `EquiprobableBinsAngularDistribution::new`: requires exactly 33 values,
all inside `[-1, 1]`; sorts them ascending and builds the LinLin table. -/
def EquiprobableBinsAngularDistribution.new (cos_theta_bins : List ℚ) :
    Outcome EquiprobableBinsAngularDistribution :=
  if cos_theta_bins.length ≠ 33 then
    .fail "EquiprobableBinsAngularDistribution: Expected 33 cos(theta) bin boundaries"
  else if cos_theta_bins.any (fun c => decide (c < -1) || decide (1 < c)) then
    .fail "EquiprobableBinsAngularDistribution: cos(theta) bin value is out of range"
  else
    let sorted := cos_theta_bins.mergeSort (fun a b => decide (a ≤ b))
    let cos_theta_cdf := (List.range 33).map (fun i => (i : ℚ) / 32)
    match InterpolationTable.from_x_and_y cos_theta_cdf sorted .LinLin with
    | .ok t => .ok ⟨t⟩
    | .fail m => .fail m
    | .crash m => .crash m

/-- The three angular-distribution variants
(`enum AngularDistribution` in `angular_distribution_types.rs`). -/
inductive AngularDistribution where
  | Isotropic
  | Tabulated (d : TabulatedAngularDistribution)
  | EquiprobableBins (d : EquiprobableBinsAngularDistribution)
deriving DecidableEq

/-- `SampleAngle::sample_cos_theta` for each variant: `2u − 1` for
isotropic, table interpolation at the CDF value `u` for the other two.
The `u ∈ [0,1]` bound is a caller contract checked only in debug builds. -/
noncomputable def sample_cos_theta (d : AngularDistribution) (unitf64 : ℚ) : Outcome ℝ :=
  match d with
  | .Isotropic => .ok (2 * (unitf64 : ℝ) - 1)
  | .Tabulated t => t.table.interpolate unitf64
  | .EquiprobableBins t => t.table.interpolate unitf64

/-- Energy-indexed family of angular distributions
(`struct EnergyDependentAngularDistribution`). -/
structure EnergyDependentAngularDistribution where
  energy : List ℚ
  distributions : List AngularDistribution
deriving DecidableEq

/-- `EnergyDependentAngularDistribution::new_fully_isotropic`: isotropic at
the two grid points `1.0e-11` and `3.0e1`. -/
def EnergyDependentAngularDistribution.new_fully_isotropic :
    EnergyDependentAngularDistribution :=
  ⟨[1 / 10 ^ 11, 30], [.Isotropic, .Isotropic]⟩

/-- Model of `Iterator::position`: index of the first element satisfying the
predicate. -/
def iterPosition {α : Type} (p : α → Bool) : List α → Option Nat
  | [] => none
  | a :: tl => if p a then some 0 else (iterPosition p tl).map (· + 1)

/-- `EnergyDependentAngularDistribution::sample_cos_theta_at_energy`:
range check against the first and last grid energies, locate the first grid
energy at or above the query, exact-hit dispatch, otherwise sample the two
bracketing distributions at the same `u` and blend linearly. -/
noncomputable def sample_cos_theta_at_energy
    (d : EnergyDependentAngularDistribution) (energy : ℚ) (unitf64 : ℚ) :
    Outcome ℝ :=
  match d.energy with
  | [] => .crash "index out of bounds"
  | e0 :: rest =>
    if energy < e0 ∨ ((e0 :: rest).getLast (List.cons_ne_nil _ _)) < energy then
      .fail "Energy is out of range"
    else
      match iterPosition (fun e => decide (energy ≤ e)) d.energy with
      | none => .crash "called Option.unwrap on a None value"
      | some energy_index =>
        match d.energy[energy_index]? with
        | none => .crash "index out of bounds"
        | some eAt =>
          if energy = eAt then
            match d.distributions[energy_index]? with
            | none => .crash "index out of bounds"
            | some dist => sample_cos_theta dist unitf64
          else
            if energy_index = 0 then .crash "attempt to subtract with overflow"
            else
              match d.energy[energy_index - 1]?, d.energy[energy_index]?,
                  d.distributions[energy_index - 1]?, d.distributions[energy_index]? with
              | some elow, some eup, some dlow, some dup =>
                match sample_cos_theta dlow unitf64 with
                | .ok lower_sample =>
                  match sample_cos_theta dup unitf64 with
                  | .ok upper_sample =>
                    .ok (lower_sample + (upper_sample - lower_sample) *
                      (((energy - elow) / (eup - elow) : ℚ) : ℝ))
                  | .fail m => .fail m
                  | .crash m => .crash m
                | .fail m => .fail m
                | .crash m => .crash m
              | _, _, _, _ => .crash "index out of bounds"

/-- Counterexample to C7: construction with equal-length empty inputs does
not fail; the source checks only the scheme and the length equality, never
emptiness, so `new(LinLin, [], [])` succeeds. -/
theorem tabulated_new_empty_counterexample :
    (TabulatedAngularDistribution.new .LinLin [] []).isOk = true ∧
    (TabulatedAngularDistribution.new .LinLin [] []).isFail = false :=
  ⟨rfl, rfl⟩

/-- C7 amended: `TabulatedAngularDistribution::new` returns an error iff the
scheme is neither Histogram nor LinLin, or the two vectors differ in length;
equal-length empty input succeeds. -/
theorem tabulated_new_fail_iff (s : InterpolationScheme) (bins cdf : List ℚ) :
    (TabulatedAngularDistribution.new s bins cdf).isFail = true ↔
      ((s ≠ .Histogram ∧ s ≠ .LinLin) ∨ bins.length ≠ cdf.length) := by
  unfold TabulatedAngularDistribution.new
  by_cases h1 : s ≠ .Histogram ∧ s ≠ .LinLin
  · simp [h1, Outcome.isFail]
  · rw [if_neg h1]
    by_cases h2 : bins.length ≠ cdf.length
    · simp [h2, h1, Outcome.isFail]
    · rw [if_neg h2]
      have hlen : ¬ cdf.length ≠ bins.length := fun hne => h2 (fun he => hne he.symm)
      simp only [InterpolationTable.from_x_and_y, if_neg hlen,
        InterpolationRegion.from_x_and_y, Outcome.isFail]
      simp [h1, h2, hlen]

theorem chainLt_get_lt {l : List ℚ} (hs : List.Chain' (· < ·) l) {i j : Nat}
    (hij : i < j) {a b : ℚ} (ha : l[i]? = some a) (hb : l[j]? = some b) :
    a < b := by
  have hpair : List.Pairwise (· < ·) l := List.chain'_iff_pairwise.mp hs
  obtain ⟨hilen, hig⟩ := List.getElem?_eq_some.mp ha
  obtain ⟨hjlen, hjg⟩ := List.getElem?_eq_some.mp hb
  have := List.pairwise_iff_get.mp hpair ⟨i, hilen⟩ ⟨j, hjlen⟩ hij
  simpa [List.get_eq_getElem, hig, hjg] using this

theorem chainLt_get_le {l : List ℚ} (hs : List.Chain' (· < ·) l) {i j : Nat}
    (hij : i ≤ j) {a b : ℚ} (ha : l[i]? = some a) (hb : l[j]? = some b) :
    a ≤ b := by
  rcases Nat.lt_or_ge i j with h | h
  · exact le_of_lt (chainLt_get_lt hs h ha hb)
  · have : i = j := le_antisymm hij h
    subst this
    rw [ha] at hb
    cases hb
    exact le_refl _

theorem iterPosition_eq_some {α : Type} (p : α → Bool) :
    ∀ (l : List α) (c : Nat),
      (∀ j a, j < c → l[j]? = some a → p a = false) →
      ∀ a, l[c]? = some a → p a = true →
      iterPosition p l = some c := by
  intro l
  induction l with
  | nil =>
    intro c _ a hc
    simp at hc
  | cons x tl ih =>
    intro c hfalse a hc hpa
    cases c with
    | zero =>
      have hxa : x = a := by simpa using hc
      subst hxa
      simp [iterPosition, hpa]
    | succ c =>
      have hx : p x = false := hfalse 0 x (Nat.succ_pos c) (by simp)
      have htl : iterPosition p tl = some c := by
        refine ih c ?_ a (by simpa using hc) hpa
        intro j b hj hjb
        exact hfalse (j + 1) b (Nat.succ_lt_succ hj) (by simpa using hjb)
      simp [iterPosition, hx, htl]

/-- Out-of-range rejection of the energy-dependent sampler: any query energy
strictly below the first grid energy or strictly above the last one yields
the out-of-range error. -/
theorem sample_energy_out_of_range (d : EnergyDependentAngularDistribution)
    (e0 : ℚ) (hh : d.energy.head? = some e0)
    (el : ℚ) (hl : d.energy.getLast? = some el)
    (E u : ℚ) (hout : E < e0 ∨ el < E) :
    sample_cos_theta_at_energy d E u = .fail "Energy is out of range" := by
  cases hE : d.energy with
  | nil => rw [hE] at hh; cases hh
  | cons a rest =>
    have ha : a = e0 := by rw [hE] at hh; simpa using hh
    have hlast : (a :: rest).getLast (List.cons_ne_nil _ _) = el := by
      have hgl := List.getLast?_eq_getLast (a :: rest) (List.cons_ne_nil _ _)
      rw [hE] at hl
      rw [hgl] at hl
      exact Option.some_inj.mp hl
    simp only [sample_cos_theta_at_energy, hE]
    rw [hlast, ha, if_pos hout]

/-- C10: when the query energy coincides with a grid point `energy[i]` of an
ascending grid, the sampler returns exactly the sample of distribution `i`
at the same `u`, with no blending. -/
theorem sample_at_grid_energy (d : EnergyDependentAngularDistribution)
    (hsorted : List.Chain' (· < ·) d.energy)
    (i : Nat) (Ei : ℚ) (hi : d.energy[i]? = some Ei)
    (di : AngularDistribution) (hdi : d.distributions[i]? = some di)
    (u : ℚ) :
    sample_cos_theta_at_energy d Ei u = sample_cos_theta di u := by
  cases hE : d.energy with
  | nil => rw [hE] at hi; simp at hi
  | cons e0 rest =>
    rw [hE] at hsorted hi
    have h00 : (e0 :: rest)[0]? = some e0 := by simp
    have he0le : e0 ≤ Ei := chainLt_get_le hsorted (Nat.zero_le i) h00 hi
    have hilen : i < (e0 :: rest).length := (List.getElem?_eq_some.mp hi).1
    have hlg := List.getLast?_eq_getLast (e0 :: rest) (List.cons_ne_nil _ _)
    have hlast0 : (e0 :: rest)[(e0 :: rest).length - 1]? =
        some ((e0 :: rest).getLast (List.cons_ne_nil _ _)) := by
      rw [← List.getLast?_eq_getElem?]
      exact hlg
    have hEile : Ei ≤ (e0 :: rest).getLast (List.cons_ne_nil _ _) :=
      chainLt_get_le hsorted (by omega) hi hlast0
    have hrange : ¬ (Ei < e0 ∨ (e0 :: rest).getLast (List.cons_ne_nil _ _) < Ei) := by
      push_neg
      exact ⟨he0le, hEile⟩
    have hpos : iterPosition (fun e => decide (Ei ≤ e)) (e0 :: rest) = some i := by
      refine iterPosition_eq_some _ (e0 :: rest) i ?_ Ei hi (by simp)
      intro j a hj hja
      have : a < Ei := chainLt_get_lt hsorted hj hja hi
      simpa using not_le_of_lt this
    simp only [sample_cos_theta_at_energy, hE, hpos, hi, hdi, if_neg hrange,
      if_pos rfl]
    simp

/-- C4: for an ascending energy grid and a query `E` strictly between grid
points `E0 = energy[i]` and `E1 = energy[i+1]`, the sampler draws from both
bracketing distributions at the same `u` and returns
`s0 + (s1 − s0)·(E − E0)/(E1 − E0)`; and every query outside
`[energy[0], energy[last]]` fails with the out-of-range error. -/
theorem sample_blends_between_grid_points (d : EnergyDependentAngularDistribution)
    (hsorted : List.Chain' (· < ·) d.energy)
    (i : Nat) (E0 E1 : ℚ) (h0 : d.energy[i]? = some E0) (h1 : d.energy[i + 1]? = some E1)
    (E u : ℚ) (hE0 : E0 < E) (hE1 : E < E1)
    (dl du : AngularDistribution)
    (hdl : d.distributions[i]? = some dl) (hdu : d.distributions[i + 1]? = some du)
    (s0 s1 : ℝ) (hs0 : sample_cos_theta dl u = .ok s0)
    (hs1 : sample_cos_theta du u = .ok s1) :
    sample_cos_theta_at_energy d E u =
      .ok (s0 + (s1 - s0) * (((E - E0) / (E1 - E0) : ℚ) : ℝ)) ∧
    (∀ E2 u2 : ℚ, (∀ e0, d.energy.head? = some e0 → E2 < e0) ∨
        (∀ el, d.energy.getLast? = some el → el < E2) →
      sample_cos_theta_at_energy d E2 u2 = .fail "Energy is out of range") := by
  cases hE : d.energy with
  | nil => rw [hE] at h0; simp at h0
  | cons e0 rest =>
    rw [hE] at hsorted h0 h1
    have h00 : (e0 :: rest)[0]? = some e0 := by simp
    have hi1len : i + 1 < (e0 :: rest).length := (List.getElem?_eq_some.mp h1).1
    have hlg := List.getLast?_eq_getLast (e0 :: rest) (List.cons_ne_nil _ _)
    have hlast0 : (e0 :: rest)[(e0 :: rest).length - 1]? =
        some ((e0 :: rest).getLast (List.cons_ne_nil _ _)) := by
      rw [← List.getLast?_eq_getElem?]
      exact hlg
    constructor
    · have he0le : e0 ≤ E :=
        le_of_lt (lt_of_le_of_lt (chainLt_get_le hsorted (Nat.zero_le i) h00 h0) hE0)
      have hEle : E ≤ (e0 :: rest).getLast (List.cons_ne_nil _ _) :=
        le_of_lt (lt_of_lt_of_le hE1 (chainLt_get_le hsorted (by omega) h1 hlast0))
      have hrange : ¬ (E < e0 ∨ (e0 :: rest).getLast (List.cons_ne_nil _ _) < E) := by
        push_neg
        exact ⟨he0le, hEle⟩
      have hpos : iterPosition (fun e => decide (E ≤ e)) (e0 :: rest) = some (i + 1) := by
        refine iterPosition_eq_some _ (e0 :: rest) (i + 1) ?_ E1 h1
          (by simpa using le_of_lt hE1)
        intro j a hj hja
        have haE0 : a ≤ E0 := chainLt_get_le hsorted (by omega) hja h0
        simpa using not_le_of_lt (lt_of_le_of_lt haE0 hE0)
      have hne : E ≠ E1 := ne_of_lt hE1
      simp only [sample_cos_theta_at_energy, hE, hpos, h1, if_neg hrange,
        if_neg hne, if_neg (Nat.succ_ne_zero i), Nat.add_sub_cancel, h0,
        hdl, hdu, hs0, hs1]
    · intro E2 u2 hout
      refine sample_energy_out_of_range d e0 (by rw [hE]; simp) _ (by rw [hE]; exact hlg)
        E2 u2 ?_
      rcases hout with hlo | hhi
      · exact Or.inl (hlo e0 (by simp))
      · exact Or.inr (hhi _ hlg)

def c4Dist : EnergyDependentAngularDistribution :=
  ⟨[0, 10], [.Isotropic, .Isotropic]⟩

/-- Witness for C4 at the concrete two-point isotropic family over energies
`{0, 10}`, queried at `E = 5`, `u = 1`. -/
theorem sample_blends_between_grid_points_witness :
    List.Chain' (· < ·) c4Dist.energy ∧
    c4Dist.energy[0]? = some 0 ∧
    c4Dist.energy[0 + 1]? = some 10 ∧
    (0 : ℚ) < 5 ∧ (5 : ℚ) < 10 ∧
    c4Dist.distributions[0]? = some .Isotropic ∧
    c4Dist.distributions[0 + 1]? = some .Isotropic ∧
    sample_cos_theta .Isotropic 1 = .ok (2 * ((1 : ℚ) : ℝ) - 1) ∧
    (sample_cos_theta_at_energy c4Dist 5 1 =
      .ok ((2 * ((1 : ℚ) : ℝ) - 1) + ((2 * ((1 : ℚ) : ℝ) - 1) - (2 * ((1 : ℚ) : ℝ) - 1)) *
        ((((5 : ℚ) - 0) / ((10 : ℚ) - 0) : ℚ) : ℝ)) ∧
    (∀ E2 u2 : ℚ, (∀ e0, c4Dist.energy.head? = some e0 → E2 < e0) ∨
        (∀ el, c4Dist.energy.getLast? = some el → el < E2) →
      sample_cos_theta_at_energy c4Dist E2 u2 = .fail "Energy is out of range")) :=
  ⟨by norm_num [c4Dist, List.chain'_cons], rfl, rfl, by norm_num, by norm_num,
   rfl, rfl, rfl,
   sample_blends_between_grid_points c4Dist
     (by norm_num [c4Dist, List.chain'_cons]) 0 0 10 rfl rfl 5 1
     (by norm_num) (by norm_num) .Isotropic .Isotropic rfl rfl
     (2 * ((1 : ℚ) : ℝ) - 1) (2 * ((1 : ℚ) : ℝ) - 1) rfl rfl⟩

/-- Witness for C10 at the same concrete family, queried exactly at the grid
point `E = 0`. -/
theorem sample_at_grid_energy_witness :
    List.Chain' (· < ·) c4Dist.energy ∧
    c4Dist.energy[0]? = some 0 ∧
    c4Dist.distributions[0]? = some .Isotropic ∧
    sample_cos_theta_at_energy c4Dist 0 1 = sample_cos_theta .Isotropic 1 :=
  ⟨by norm_num [c4Dist, List.chain'_cons], rfl, rfl,
   sample_at_grid_energy c4Dist (by norm_num [c4Dist, List.chain'_cons])
     0 0 rfl .Isotropic rfl 1⟩

/-- Monadic sequencing on outcomes; errors and panics propagate. -/
def Outcome.bind {α β : Type} : Outcome α → (α → Outcome β) → Outcome β
  | .ok a, f => f a
  | .fail m, _ => .fail m
  | .crash m, _ => .crash m

/-- `NumberOfExitingNeutrons` (tyr.rs): kinds of neutron release. -/
inductive NumberOfExitingNeutrons where
  | Discrete (n : Nat)
  | EnergyDependent
  | Absorption
deriving DecidableEq

/-- `From<isize> for NumberOfExitingNeutrons`: by absolute value, 0 is
absorption, 1–4 discrete, 19 or above 100 energy-dependent, anything else
panics. -/
def NumberOfExitingNeutrons.fromInt (value : Int) : Outcome NumberOfExitingNeutrons :=
  match value.natAbs with
  | 0 => .ok .Absorption
  | 1 => .ok (.Discrete 1)
  | 2 => .ok (.Discrete 2)
  | 3 => .ok (.Discrete 3)
  | 4 => .ok (.Discrete 4)
  | n =>
    if 100 < n ∨ n = 19 then .ok .EnergyDependent
    else .crash "Invalid value in TYR describing neutron release"

/-- `ExitingNeutronFrameOfReference` (tyr.rs). -/
inductive ExitingNeutronFrameOfReference where
  | CenterOfMass
  | Laboratory
  | NoRelease
deriving DecidableEq

/-- `From<isize> for ExitingNeutronFrameOfReference`: sign decides the
frame. -/
def ExitingNeutronFrameOfReference.fromInt (value : Int) :
    ExitingNeutronFrameOfReference :=
  if value = 0 then .NoRelease
  else if 0 < value then .Laboratory
  else .CenterOfMass

/-- `ExitingNeutronData`: neutron release plus frame of reference. -/
structure ExitingNeutronData where
  neutron_release : NumberOfExitingNeutrons
  frame_of_reference : ExitingNeutronFrameOfReference
deriving DecidableEq

/-- `TYR::mt_values_with_neutron_release`: the MTs whose neutron release is
not Absorption.  The source `HashMap` is modelled as an association list;
the claims only depend on the key set, which is iteration-order
independent. -/
def mt_values_with_neutron_release (tyr : List (Nat × ExitingNeutronData)) :
    List Nat :=
  (tyr.filter (fun kv => kv.2.neutron_release ≠ .Absorption)).map Prod.fst

/-- `MTNumber::ElasticScattering`.  The `helpers.rs` enum is not shipped
under src/; the spec glossary fixes elastic scattering as MT 2. -/
def elasticMT : Nat := 2

/-- `LAND::mt_values_with_distributions`: iterate over all of TYR's keys,
keep those having a LAND entry different from −1, then append the elastic
MT.  The source does not restrict to neutron-releasing MTs. -/
def mt_values_with_distributions (land : List (Nat × Int))
    (tyr : Option (List (Nat × ExitingNeutronData))) : List Nat :=
  (match tyr with
   | some tyr_block =>
     (tyr_block.map Prod.fst).filterMap (fun mt =>
       match List.lookup mt land with
       | some v => if v ≠ -1 then some mt else none
       | none => none)
   | none => []) ++ [elasticMT]

/-- An 8-byte XXS word as the block decoders see it: either the bit pattern
of an `i64` (counts, locators, tags) or an `f64` value.  Reading a word as
the wrong kind reinterprets IEEE bits, which the rational embedding cannot
represent; such a read is modelled as a crash and is unreachable on
well-formed block data. -/
inductive Word where
  | int (n : Int)
  | real (q : ℚ)
deriving DecidableEq

/-- `val.to_bits() as usize`/`as isize` on an integer-bit-pattern word. -/
def Word.asInt : Word → Outcome Int
  | .int n => .ok n
  | .real _ => .crash "float word read as an integer bit pattern"

/-- Reading a word as a plain `f64` value. -/
def Word.asRat : Word → Outcome ℚ
  | .real q => .ok q
  | .int _ => .crash "integer word read as a float value"

/-- Reinterpretation of an `i64` value as a `usize` (`as usize`): wrap into
`[0, 2^64)`. -/
def usizeOfInt (n : Int) : Nat := (n % (2 : Int) ^ 64).toNat

/-- Rust slice indexing `data[i]`; out of bounds panics. -/
def indexWord (data : List Word) (i : Nat) : Outcome Word :=
  match data[i]? with
  | some w => .ok w
  | none => .crash "index out of bounds"

/-- Rust range indexing `&data[a..b]`; out of bounds panics. -/
def sliceWords (data : List Word) (a b : Nat) : Outcome (List Word) :=
  if a ≤ b ∧ b ≤ data.length then .ok ((data.drop a).take (b - a))
  else .crash "range index out of bounds"

/-- Sequence a fallible reader over a list. -/
def traverseOutcome {α β : Type} (f : α → Outcome β) : List α → Outcome (List β)
  | [] => .ok []
  | a :: tl =>
    (f a).bind fun b => (traverseOutcome f tl).bind fun bs => .ok (b :: bs)

/-- `make_tabulated_distribution_from_data` (and.rs): scheme tag, point
count, cos θ values, then the CDF two point-blocks later (skipping the
PDF); the `unwrap` on the constructor panics on a constructor error. -/
def make_tabulated_distribution_from_data (data : List Word) (start_index : Nat) :
    Outcome TabulatedAngularDistribution :=
  (indexWord data start_index).bind fun w0 =>
  w0.asInt.bind fun tag =>
  (InterpolationScheme.fromNat (usizeOfInt tag)).bind fun interpolation_scheme =>
  (indexWord data (start_index + 1)).bind fun w1 =>
  w1.asInt.bind fun npw =>
  let num_points := usizeOfInt npw
  let cos_theta_values_index := start_index + 1 + 1
  (sliceWords data cos_theta_values_index (cos_theta_values_index + num_points)).bind
    fun cosw =>
  (traverseOutcome Word.asRat cosw).bind fun cos_theta_values =>
  let cos_theta_cdf_index := cos_theta_values_index + 2 * num_points
  (sliceWords data cos_theta_cdf_index (cos_theta_cdf_index + num_points)).bind
    fun cdfw =>
  (traverseOutcome Word.asRat cdfw).bind fun cos_theta_cdf_values =>
  match TabulatedAngularDistribution.new interpolation_scheme cos_theta_values
      cos_theta_cdf_values with
  | .ok t => .ok t
  | .fail _ => .crash "called Result.unwrap on an Err value"
  | .crash m => .crash m

/-- The per-locator arm of `AND::process`: negative locator = tabulated
record, positive = 33-value equiprobable-bin record, zero = isotropic. -/
def and_distribution_for_locator (data : List Word) (locator : Int) :
    Outcome AngularDistribution :=
  if locator < 0 then
    (make_tabulated_distribution_from_data data (locator.natAbs - 1)).bind fun t =>
      .ok (.Tabulated t)
  else if 0 < locator then
    (sliceWords data locator.toNat (locator.toNat + 33)).bind fun binsw =>
    (traverseOutcome Word.asRat binsw).bind fun cos_theta_bins =>
    match EquiprobableBinsAngularDistribution.new cos_theta_bins with
    | .ok e => .ok (.EquiprobableBins e)
    | .fail _ => .crash "called Result.unwrap on an Err value"
    | .crash m => .crash m
  else .ok .Isotropic

/-- The per-MT body of the `AND::process` loop: LAND locator 0 yields the
fully isotropic family, otherwise decode the energy grid, the per-energy
locators and the per-energy distributions. -/
def and_entry_for_mt (data : List Word) (land : List (Nat × Int)) (mt : Nat) :
    Outcome EnergyDependentAngularDistribution :=
  match List.lookup mt land with
  | none => .crash "called Option.unwrap on a None value"
  | some mt_loc =>
    if mt_loc = 0 then .ok EnergyDependentAngularDistribution.new_fully_isotropic
    else
      let mt_index := mt_loc.natAbs
      (indexWord data (mt_index - 1)).bind fun w0 =>
      w0.asInt.bind fun new =>
      let num_energy_points := usizeOfInt new
      (sliceWords data mt_index (mt_index + num_energy_points)).bind fun ew =>
      (traverseOutcome Word.asRat ew).bind fun energy =>
      (sliceWords data (mt_index + num_energy_points)
          (mt_index + 2 * num_energy_points)).bind fun lw =>
      (traverseOutcome Word.asInt lw).bind fun distribution_locators =>
      (traverseOutcome (and_distribution_for_locator data)
          distribution_locators).bind fun angular_distributions =>
      .ok ⟨energy, angular_distributions⟩

/-- `HashMap::insert` on the association-list model: replace an existing
key or append a fresh one. -/
def insertEntry {V : Type} (m : List (Nat × V)) (k : Nat) (v : V) :
    List (Nat × V) :=
  if (m.map Prod.fst).contains k then
    m.map (fun kv => if kv.1 = k then (k, v) else kv)
  else m ++ [(k, v)]

/-- The `AND::process` loop over the MT list, accumulating the map. -/
def and_process_go (data : List Word) (land : List (Nat × Int)) :
    List Nat → List (Nat × EnergyDependentAngularDistribution) →
    Outcome (List (Nat × EnergyDependentAngularDistribution))
  | [], acc => .ok acc
  | mt :: rest, acc =>
    (and_entry_for_mt data land mt).bind fun dist =>
      and_process_go data land rest (insertEntry acc mt dist)

/-- `AND::process`: build one energy-dependent angular distribution per MT
in `mt_values_with_distributions`. -/
def AND.process (data : List Word)
    (tyr : Option (List (Nat × ExitingNeutronData))) (land : List (Nat × Int)) :
    Outcome (List (Nat × EnergyDependentAngularDistribution)) :=
  and_process_go data land (mt_values_with_distributions land tyr) []

theorem insertEntry_keys {V : Type} (m : List (Nat × V)) (k : Nat) (v : V)
    (k2 : Nat) :
    k2 ∈ (insertEntry m k v).map Prod.fst ↔ k2 ∈ m.map Prod.fst ∨ k2 = k := by
  unfold insertEntry
  by_cases hc : (m.map Prod.fst).contains k
  · rw [if_pos hc]
    have hkmem : k ∈ m.map Prod.fst := by
      simpa using hc
    constructor
    · intro hmem
      rw [List.map_map] at hmem
      obtain ⟨kv, hkv, hkveq⟩ := List.mem_map.mp hmem
      by_cases hk : kv.1 = k
      · right
        simp [Function.comp, hk] at hkveq
        exact hkveq.symm
      · left
        simp [Function.comp, hk] at hkveq
        exact hkveq ▸ List.mem_map.mpr ⟨kv, hkv, rfl⟩
    · intro hmem
      rw [List.map_map]
      rcases hmem with hold | hk2
      · obtain ⟨kv, hkv, hkveq⟩ := List.mem_map.mp hold
        refine List.mem_map.mpr ⟨kv, hkv, ?_⟩
        by_cases hk : kv.1 = k
        · simp [Function.comp, hk, hkveq ▸ hk]
        · have hk2k : ¬ k2 = k := fun he => hk (hkveq.trans he)
          simp [Function.comp, hk, hkveq, hk2k]
      · obtain ⟨kv, hkv, hkveq⟩ := List.mem_map.mp hkmem
        refine List.mem_map.mpr ⟨kv, hkv, ?_⟩
        simp [Function.comp, hkveq, hk2]
  · rw [if_neg hc]
    simp

theorem and_process_go_keys (data : List Word) (land : List (Nat × Int)) :
    ∀ (mts : List Nat) (acc m : List (Nat × EnergyDependentAngularDistribution)),
      and_process_go data land mts acc = .ok m →
      ∀ k2, k2 ∈ m.map Prod.fst ↔ k2 ∈ acc.map Prod.fst ∨ k2 ∈ mts := by
  intro mts
  induction mts with
  | nil =>
    intro acc m h k2
    have : acc = m := by
      simpa [and_process_go] using h
    subst this
    simp
  | cons mt rest ih =>
    intro acc m h k2
    rw [and_process_go] at h
    cases hent : and_entry_for_mt data land mt with
    | ok dist =>
      rw [hent] at h
      have := ih (insertEntry acc mt dist) m h k2
      rw [this, insertEntry_keys]
      constructor
      · rintro ((hacc | hk) | hrest)
        · exact Or.inl hacc
        · exact Or.inr (by simp [hk])
        · exact Or.inr (List.mem_cons_of_mem _ hrest)
      · rintro (hacc | hmts)
        · exact Or.inl (Or.inl hacc)
        · rcases List.mem_cons.mp hmts with hk | hrest
          · exact Or.inl (Or.inr hk)
          · exact Or.inr hrest
    | fail msg => rw [hent] at h; cases h
    | crash msg => rw [hent] at h; cases h

theorem mem_mt_values_with_distributions (land : List (Nat × Int))
    (tyr_block : List (Nat × ExitingNeutronData)) (mt : Nat) :
    mt ∈ mt_values_with_distributions land (some tyr_block) ↔
      ((mt ∈ tyr_block.map Prod.fst ∧
        ∃ v, List.lookup mt land = some v ∧ v ≠ -1) ∨ mt = elasticMT) := by
  unfold mt_values_with_distributions
  rw [List.mem_append]
  constructor
  · rintro (hfm | hel)
    · obtain ⟨a, ha, hfa⟩ := List.mem_filterMap.mp hfm
      left
      cases hl : List.lookup a land with
      | none => rw [hl] at hfa; cases hfa
      | some v =>
        rw [hl] at hfa
        dsimp only at hfa
        by_cases hv : v ≠ -1
        · rw [if_pos hv] at hfa
          have : a = mt := by simpa using hfa
          subst this
          exact ⟨ha, v, hl, hv⟩
        · rw [if_neg hv] at hfa
          cases hfa
    · right
      simpa using hel
  · rintro (⟨hmem, v, hl, hv⟩ | hel)
    · left
      refine List.mem_filterMap.mpr ⟨mt, hmem, ?_⟩
      rw [hl]
      dsimp only
      rw [if_pos hv]
    · right
      simp [hel]

/-- C5 amended: for every successful run of `AND::process`, the set of MT
keys of the produced map equals the set of all MTs present in TYR whose
LAND entry exists and is not −1, together with the elastic MT (MT 2).  No
neutron-release filter is applied. -/
theorem and_process_mt_key_set (data : List Word)
    (tyr_block : List (Nat × ExitingNeutronData)) (land : List (Nat × Int))
    (m : List (Nat × EnergyDependentAngularDistribution))
    (h : AND.process data (some tyr_block) land = .ok m) (mt : Nat) :
    mt ∈ m.map Prod.fst ↔
      ((mt ∈ tyr_block.map Prod.fst ∧
        ∃ v, List.lookup mt land = some v ∧ v ≠ -1) ∨ mt = elasticMT) := by
  have hgo := and_process_go_keys data land
    (mt_values_with_distributions land (some tyr_block)) [] m h mt
  rw [hgo]
  simp only [List.map_nil, List.not_mem_nil, false_or]
  exact mem_mt_values_with_distributions land tyr_block mt

/-- Statement of claim C5's key set, written from the spec's words: the MTs
that TYR reports as releasing neutrons (release not Absorption),
intersected with the MTs whose LAND entry is not −1, plus the elastic MT. -/
def spec_and_mt_key_set (land : List (Nat × Int))
    (tyr : Option (List (Nat × ExitingNeutronData))) : List Nat :=
  (match tyr with
   | some tyr_block =>
     (mt_values_with_neutron_release tyr_block).filter (fun mt =>
       match List.lookup mt land with
       | some v => decide (v ≠ -1)
       | none => false)
   | none => []) ++ [elasticMT]

def c5Tyr : List (Nat × ExitingNeutronData) :=
  [(102, ⟨.Absorption, .NoRelease⟩)]

def c5Land : List (Nat × Int) := [(2, 0), (102, 0)]

/-- Counterexample to C5: MT 102 is reported by TYR as pure absorption
(release Absorption), yet its LAND entry is 0 (≠ −1), so `AND::process`
parses an angular distribution for it; the claim's key set excludes it. -/
theorem and_keys_counterexample :
    AND.process [] (some c5Tyr) c5Land =
      .ok [(102, EnergyDependentAngularDistribution.new_fully_isotropic),
           (2, EnergyDependentAngularDistribution.new_fully_isotropic)] ∧
    (102 ∈ ([(102, EnergyDependentAngularDistribution.new_fully_isotropic),
             (2, EnergyDependentAngularDistribution.new_fully_isotropic)].map
               (Prod.fst (α := Nat)
                 (β := EnergyDependentAngularDistribution)))) ∧
    ¬ 102 ∈ spec_and_mt_key_set c5Land (some c5Tyr) :=
  ⟨rfl, by decide, by decide⟩

/-- Witness for the amended C5 at the concrete TYR/LAND pair of the
counterexample. -/
theorem and_process_mt_key_set_witness :
    AND.process [] (some c5Tyr) c5Land =
      .ok [(102, EnergyDependentAngularDistribution.new_fully_isotropic),
           (2, EnergyDependentAngularDistribution.new_fully_isotropic)] ∧
    (102 ∈ ([(102, EnergyDependentAngularDistribution.new_fully_isotropic),
             (2, EnergyDependentAngularDistribution.new_fully_isotropic)].map
               Prod.fst) ↔
      ((102 ∈ c5Tyr.map Prod.fst ∧
        ∃ v, List.lookup 102 c5Land = some v ∧ v ≠ -1) ∨ 102 = elasticMT)) :=
  ⟨rfl,
   and_process_mt_key_set []
     c5Tyr c5Land
     [(102, EnergyDependentAngularDistribution.new_fully_isotropic),
      (2, EnergyDependentAngularDistribution.new_fully_isotropic)]
     rfl 102⟩

/-! PACE binary format (utils/binary_format.rs).  The writer emits, in
host-native (little-endian) order: 16 bytes SZAID, 16 bytes ZAID, 8 bytes
atomic mass fraction, 8 bytes kT, then one 8-byte word per whitespace token
of the ten IZAW/NXS/JXS lines, then one 8-byte word per 20-character XXS
field.  Bytes are natural numbers below 256; `f64` values are carried as
their 64-bit patterns. -/

/-- Little-endian byte encoding of the low `k` bytes of `n`
(`to_ne_bytes` on a little-endian host). -/
def natToLEBytes : Nat → Nat → List Nat
  | 0, _ => []
  | k + 1, n => n % 256 :: natToLEBytes k (n / 256)

/-- Little-endian byte decoding (`from_ne_bytes` / the zero-copy `usize`
and `f64` reinterpretations of the memory map). -/
def leBytesToNat : List Nat → Nat
  | [] => 0
  | b :: bs => b + 256 * leBytesToNat bs

theorem natToLEBytes_length (k n : Nat) : (natToLEBytes k n).length = k := by
  induction k generalizing n with
  | zero => rfl
  | succ k ih => simp [natToLEBytes, ih]

theorem leBytesToNat_natToLEBytes8 (n : Nat) (h : n < 2 ^ 64) :
    leBytesToNat (natToLEBytes 8 n) = n := by
  simp only [natToLEBytes, leBytesToNat]
  omega

theorem natToLEBytes8_last_zero (n : Nat) (h : n < 2 ^ 56) :
    (natToLEBytes 8 n)[7]? = some 0 := by
  simp only [natToLEBytes]
  simp only [List.getElem?_cons_succ, List.getElem?_cons_zero, Option.some.injEq]
  omega

/-- The zero-copy word view of a byte region: consecutive 8-byte chunks,
trailing partial chunk dropped (`len / 8` elements). -/
def wordsOf (bs : List Nat) : List Nat :=
  if h : 8 ≤ bs.length then leBytesToNat (bs.take 8) :: wordsOf (bs.drop 8)
  else []
termination_by bs.length
decreasing_by
  simp only [List.length_drop]
  omega

theorem wordsOf_nil : wordsOf [] = [] := by
  rw [wordsOf]
  simp

theorem wordsOf_chunk (chunk : List Nat) (hlen : chunk.length = 8)
    (rest : List Nat) :
    wordsOf (chunk ++ rest) = leBytesToNat chunk :: wordsOf rest := by
  rw [wordsOf]
  rw [dif_pos (by simp [hlen])]
  rw [List.take_left' hlen, List.drop_left' hlen]

theorem join_length8 :
    ∀ (chunks : List (List Nat)), (∀ c ∈ chunks, c.length = 8) →
      chunks.flatten.length = 8 * chunks.length := by
  intro chunks
  induction chunks with
  | nil => simp
  | cons c tl ih =>
    intro h
    have hc : c.length = 8 := h c (by simp)
    have htl := ih (fun d hd => h d (List.mem_cons_of_mem _ hd))
    simp [hc, htl]
    ring

theorem wordsOf_join8 :
    ∀ (chunks : List (List Nat)), (∀ c ∈ chunks, c.length = 8) →
      wordsOf chunks.flatten = chunks.map leBytesToNat := by
  intro chunks
  induction chunks with
  | nil => simpa using wordsOf_nil
  | cons c tl ih =>
    intro h
    have hc : c.length = 8 := h c (by simp)
    have htl := ih (fun d hd => h d (List.mem_cons_of_mem _ hd))
    simp only [List.flatten_cons, List.map_cons]
    rw [wordsOf_chunk c hc, htl]

theorem join8_getElem :
    ∀ (chunks : List (List Nat)), (∀ c ∈ chunks, c.length = 8) →
      ∀ (k r : Nat), r < 8 →
      chunks.flatten[8 * k + r]? = Option.bind (chunks[k]?) (fun w => w[r]?) := by
  intro chunks
  induction chunks with
  | nil => simp
  | cons c tl ih =>
    intro h k r hr
    have hc : c.length = 8 := h c (by simp)
    have htl := ih (fun d hd => h d (List.mem_cons_of_mem _ hd))
    cases k with
    | zero =>
      simp only [Nat.mul_zero, Nat.zero_add, List.flatten_cons,
        List.getElem?_cons_zero, Option.some_bind]
      rw [List.getElem?_append_left (by omega)]
    | succ k =>
      simp only [List.flatten_cons, List.getElem?_cons_succ]
      rw [List.getElem?_append_right (by omega)]
      have harith : 8 * (k + 1) + r - c.length = 8 * k + r := by omega
      rw [harith]
      exact htl k r hr

/-- Reinterpretation of an `i64` as its 64-bit pattern
(`integer.to_ne_bytes` writes exactly these bytes). -/
def i64Bits (n : Int) : Nat := (n % (2 : Int) ^ 64).toNat

theorem i64Bits_lt (n : Int) : i64Bits n < 2 ^ 64 := by
  unfold i64Bits
  have h1 : n % (2 : Int) ^ 64 < (2 : Int) ^ 64 :=
    Int.emod_lt_of_pos n (by positivity)
  omega

theorem i64Bits_of_nonneg (n : Int) (h0 : 0 ≤ n) (hlt : n < (2 : Int) ^ 63) :
    i64Bits n = n.toNat := by
  unfold i64Bits
  rw [Int.emod_eq_of_lt h0 (by omega)]

/-- One whitespace-delimited numeric token of the ACE text, carrying the
results of the writer's two parse attempts: `parse::<i64>()` first, then
`parse::<f64>()` (the float value by its IEEE bit pattern). -/
structure Token where
  intVal : Option Int
  floatBits : Option Nat
deriving DecidableEq

/-- The 64-bit word the writer emits for a token: the `i64` bit pattern when
the integer parse succeeds, otherwise the `f64` bit pattern. -/
def Token.wordBits (t : Token) : Option Nat :=
  match t.intVal with
  | some n => some (i64Bits n)
  | none => t.floatBits

/-- Token encoding in the IZAW/NXS/JXS section: an unparseable token is a
recoverable `Err` ("Invalid token format"). -/
def tokenBytesErr (t : Token) : Outcome (List Nat) :=
  match t.wordBits with
  | some b => .ok (natToLEBytes 8 b)
  | none => .fail "Invalid token format"

/-- Token encoding in the XXS section: an unparseable token panics. -/
def tokenBytesPanic (t : Token) : Outcome (List Nat) :=
  match t.wordBits with
  | some b => .ok (natToLEBytes 8 b)
  | none => .crash "Invalid token when trying to convert ASCII to binary"

/-- The parsed ACE header (`struct Header`), at the byte/bit level: the
identifiers as ASCII byte strings and the two `f64` fields as bit patterns.
The derived `temperature` field is a pure function of kT and is not carried
here. -/
structure HeaderB where
  zaid : List Nat
  szaid : Option (List Nat)
  amfBits : Nat
  kTBits : Nat
deriving DecidableEq

/-- Space-pad an identifier to 16 bytes; an identifier longer than 16 bytes
makes `16 - val.len()` underflow, a panic. -/
def pad16 (s : List Nat) : Outcome (List Nat) :=
  if 16 < s.length then .crash "attempt to subtract with overflow"
  else .ok (s ++ List.replicate (16 - s.length) 32)

/-- `convert_ACE_to_PACE`, after the header has been parsed by
`Header::from_ACE`: write the two padded identifiers and the two `f64`
fields, then one word per token of the ten IZAW/NXS/JXS lines, then one
word per XXS token (the parallel chunks are reassembled in index order,
which concatenation models). -/
def convert_ACE_to_PACE (header : HeaderB) (arrayTokens xxsTokens : List Token) :
    Outcome (List Nat) :=
  (match header.szaid with
   | some v => pad16 v
   | none => .ok (List.replicate 16 32)).bind fun szb =>
  (pad16 header.zaid).bind fun zb =>
  (traverseOutcome tokenBytesErr arrayTokens).bind fun arrChunks =>
  (traverseOutcome tokenBytesPanic xxsTokens).bind fun xxsChunks =>
  .ok (szb ++ (zb ++ (natToLEBytes 8 header.amfBits ++ (natToLEBytes 8 header.kTBits ++
    (arrChunks.flatten ++ xxsChunks.flatten)))))

/-- `u8::is_ascii_whitespace`, used by `trim_ascii_end`. -/
def isWsByte (b : Nat) : Bool :=
  b = 32 || b = 9 || b = 10 || b = 12 || b = 13

/-- `slice::trim_ascii_end`: drop trailing ASCII whitespace. -/
def trimAsciiEnd (l : List Nat) : List Nat :=
  (l.reverse.dropWhile isWsByte).reverse

/-- Byte range `bytes[a..b]`. -/
def sliceBytes (bs : List Nat) (a b : Nat) : List Nat :=
  (bs.drop a).take (b - a)

/-- `Header::from_PACE`: SZAID from bytes 0–16 (trailing spaces trimmed,
empty means absent), ZAID from bytes 16–32, then the two `f64` fields. -/
def Header.from_PACE (bs : List Nat) : HeaderB :=
  let szaid_str := trimAsciiEnd (sliceBytes bs 0 16)
  { zaid := trimAsciiEnd (sliceBytes bs 16 32)
    szaid := if szaid_str = [] then none else some szaid_str
    amfBits := leBytesToNat (sliceBytes bs 32 40)
    kTBits := leBytesToNat (sliceBytes bs 40 48) }

/-- The closed enumeration of block kinds (`enum BlockType`). -/
inductive BlockType where
  | ESZ | NU | MTR | LQR | TYR | LSIG | SIG | LAND | AND | LDLW
  | DLW | GPD | MTRP | LSIGP | SIGP | LANDP | ANDP | LDLWP | DLWP | YP
  | FIS | END | LUND | DNU | BDD | DNEDL | DNED | PTYPE | NTRO | NEXT
deriving DecidableEq

/-- `JxsArray::index_from_data_block_type`: the JXS slot of each block
kind. -/
def index_from_data_block_type (block_type : BlockType) : Nat :=
  match block_type with
  | .ESZ => 0
  | .NU => 1
  | .MTR => 2
  | .LQR => 3
  | .TYR => 4
  | .LSIG => 5
  | .SIG => 6
  | .LAND => 7
  | .AND => 8
  | .LDLW => 9
  | .DLW => 10
  | .GPD => 11
  | .MTRP => 12
  | .LSIGP => 13
  | .SIGP => 14
  | .LANDP => 15
  | .ANDP => 16
  | .LDLWP => 17
  | .DLWP => 18
  | .YP => 19
  | .FIS => 20
  | .END => 21
  | .LUND => 22
  | .DNU => 23
  | .BDD => 24
  | .DNEDL => 25
  | .DNED => 26
  | .PTYPE => 29
  | .NTRO => 30
  | .NEXT => 31

/-- `NxsArray`: the 11 named fields read from the first entries of the
16-word NXS region. -/
structure NxsArrayB where
  xxs_len : Nat
  za : Nat
  nes : Nat
  ntr : Nat
  nr : Nat
  ntrp : Nat
  ntype : Nat
  npcr : Nat
  s : Nat
  z : Nat
  a : Nat
deriving DecidableEq

/-- `NxsArray::from_PACE` over the 16 decoded NXS words. -/
def NxsArray.from_PACE (ws : List Nat) : NxsArrayB :=
  { xxs_len := ws.getD 0 0
    za := ws.getD 1 0
    nes := ws.getD 2 0
    ntr := ws.getD 3 0
    nr := ws.getD 4 0
    ntrp := ws.getD 5 0
    ntype := ws.getD 6 0
    npcr := ws.getD 7 0
    s := ws.getD 8 0
    z := ws.getD 9 0
    a := ws.getD 10 0 }

/-- `is_ascii_file`: sniff the first kilobyte; an empty file counts as
ASCII, otherwise any byte ≥ 128 or a control byte other than tab, LF, CR
marks the file as binary. -/
def is_ascii_file (bs : List Nat) : Bool :=
  match bs.take 1024 with
  | [] => true
  | l => ! l.any (fun b => 128 ≤ b || (b < 32 && ! (b = 9 || b = 10 || b = 13)))

/-- The parsed PACE file as `PaceData::from_PACE` produces it (header and
index arrays; the data blocks are decoded from `xxs` downstream). -/
structure PaceDataB where
  header : HeaderB
  nxsWords : List Nat
  nxs_array : NxsArrayB
  jxs : BlockType → Nat
  xxs : List Nat

/-- `PaceData::from_PACE`: refuse ASCII input, then cut the fixed regions
out of the mapped bytes (words 304–432 for NXS, 432–688 for JXS, the rest
for XXS). A file shorter than the fixed prelude makes the mmap slicing
panic. -/
def PaceData.from_PACE (bs : List Nat) : Outcome PaceDataB :=
  if is_ascii_file bs then
    .fail "File is ASCII, this should first be converted to binary format"
  else if bs.length < 688 then .crash "range end index out of bounds"
  else
    .ok
      { header := Header.from_PACE bs
        nxsWords := wordsOf (sliceBytes bs 304 432)
        nxs_array := NxsArray.from_PACE (wordsOf (sliceBytes bs 304 432))
        jxs := fun bt =>
          (wordsOf (sliceBytes bs 432 688)).getD (index_from_data_block_type bt) 0
        xxs := wordsOf (bs.drop 688) }

theorem mem_of_getElem? {α : Type} {l : List α} {i : Nat} {a : α}
    (h : l[i]? = some a) : a ∈ l := by
  obtain ⟨hl, hg⟩ := List.getElem?_eq_some.mp h
  exact hg ▸ List.getElem_mem hl

theorem traverseOutcome_map {α β : Type} (f : α → Outcome β) (g : α → β) :
    ∀ (l : List α), (∀ a ∈ l, f a = .ok (g a)) →
      traverseOutcome f l = .ok (l.map g) := by
  intro l
  induction l with
  | nil => intro _; rfl
  | cons a tl ih =>
    intro h
    have ha := h a (by simp)
    have htl := ih (fun b hb => h b (List.mem_cons_of_mem _ hb))
    simp [traverseOutcome, ha, htl, Outcome.bind]

theorem pad16_ok (s : List Nat) (h : s.length ≤ 16) :
    pad16 s = .ok (s ++ List.replicate (16 - s.length) 32) := by
  unfold pad16
  rw [if_neg (by omega)]

theorem pad16_out_length (s : List Nat) (h : s.length ≤ 16) :
    (s ++ List.replicate (16 - s.length) 32).length = 16 := by
  simp
  omega

theorem dropWhile_ws_replicate (k : Nat) :
    List.dropWhile isWsByte (List.replicate k 32) = [] := by
  induction k with
  | zero => rfl
  | succ k ih =>
    rw [List.replicate_succ, List.dropWhile_cons]
    have h32 : isWsByte 32 = true := rfl
    rw [h32]
    simpa using ih

theorem trimAsciiEnd_replicate (k : Nat) :
    trimAsciiEnd (List.replicate k 32) = [] := by
  unfold trimAsciiEnd
  rw [List.reverse_replicate, dropWhile_ws_replicate]
  rfl

theorem trimAsciiEnd_pad (s : List Nat) (k : Nat)
    (hlast : ∀ b, s.getLast? = some b → isWsByte b = false) :
    trimAsciiEnd (s ++ List.replicate k 32) = s := by
  unfold trimAsciiEnd
  rw [List.reverse_append, List.reverse_replicate]
  rw [List.dropWhile_append]
  rw [dropWhile_ws_replicate]
  simp only [List.isEmpty_nil, if_true]
  cases hrev : s.reverse with
  | nil =>
    have : s = [] := by simpa using congrArg List.reverse hrev
    simp [this]
  | cons b tl =>
    have hhead : s.reverse.head? = some b := by rw [hrev]; rfl
    rw [List.head?_reverse] at hhead
    have hb : isWsByte b = false := hlast b hhead
    rw [List.dropWhile_cons, hb]
    simp only [Bool.false_eq_true, if_false]
    rw [← hrev, List.reverse_reverse]

theorem index_from_data_block_type_le (bt : BlockType) :
    index_from_data_block_type bt ≤ 31 := by
  cases bt <;> simp [index_from_data_block_type]

/-- The word value a token contributes to the PACE file (its direct numeric
parse, as 64 bits). -/
def tokenWordVal (t : Token) : Nat := t.wordBits.getD 0

/-- The eight bytes written for a token. -/
def tokenChunk (t : Token) : List Nat := natToLEBytes 8 (tokenWordVal t)

theorem tokenChunk_length (t : Token) : (tokenChunk t).length = 8 :=
  natToLEBytes_length 8 _

theorem tokenBytesErr_ok (t : Token) (h : ∃ b, t.wordBits = some b ∧ b < 2 ^ 64) :
    tokenBytesErr t = .ok (tokenChunk t) := by
  obtain ⟨b, hb, _⟩ := h
  simp [tokenBytesErr, hb, tokenChunk, tokenWordVal]

theorem tokenBytesPanic_ok (t : Token) (h : ∃ b, t.wordBits = some b ∧ b < 2 ^ 64) :
    tokenBytesPanic t = .ok (tokenChunk t) := by
  obtain ⟨b, hb, _⟩ := h
  simp [tokenBytesPanic, hb, tokenChunk, tokenWordVal]

theorem leBytes_tokenChunk (t : Token) (h : ∃ b, t.wordBits = some b ∧ b < 2 ^ 64) :
    leBytesToNat (tokenChunk t) = tokenWordVal t := by
  obtain ⟨b, hb, hlt⟩ := h
  unfold tokenChunk
  rw [leBytesToNat_natToLEBytes8]
  rw [tokenWordVal, hb]
  simpa using hlt

/-- Decoding the 48 header bytes recovers exactly the written header. -/
theorem from_PACE_header_section (header : HeaderB) (szb zb tail : List Nat)
    (hszb16 : szb.length = 16) (hzb16 : zb.length = 16)
    (hztrim : trimAsciiEnd zb = header.zaid)
    (hstrim : (if trimAsciiEnd szb = [] then none else some (trimAsciiEnd szb)) =
      header.szaid)
    (hamf : header.amfBits < 2 ^ 64) (hkT : header.kTBits < 2 ^ 64) :
    Header.from_PACE (szb ++ (zb ++ (natToLEBytes 8 header.amfBits ++
      (natToLEBytes 8 header.kTBits ++ tail)))) = header := by
  have hd16 : (szb ++ (zb ++ (natToLEBytes 8 header.amfBits ++
      (natToLEBytes 8 header.kTBits ++ tail)))).drop 16 =
      zb ++ (natToLEBytes 8 header.amfBits ++ (natToLEBytes 8 header.kTBits ++ tail)) :=
    List.drop_left' hszb16
  have hd32 : (szb ++ (zb ++ (natToLEBytes 8 header.amfBits ++
      (natToLEBytes 8 header.kTBits ++ tail)))).drop 32 =
      natToLEBytes 8 header.amfBits ++ (natToLEBytes 8 header.kTBits ++ tail) := by
    have h : ((szb ++ (zb ++ (natToLEBytes 8 header.amfBits ++
        (natToLEBytes 8 header.kTBits ++ tail)))).drop 16).drop 16 =
        (szb ++ (zb ++ (natToLEBytes 8 header.amfBits ++
        (natToLEBytes 8 header.kTBits ++ tail)))).drop 32 :=
      List.drop_drop 16 16 _
    rw [← h, hd16]
    exact List.drop_left' hzb16
  have hd40 : (szb ++ (zb ++ (natToLEBytes 8 header.amfBits ++
      (natToLEBytes 8 header.kTBits ++ tail)))).drop 40 =
      natToLEBytes 8 header.kTBits ++ tail := by
    have h : ((szb ++ (zb ++ (natToLEBytes 8 header.amfBits ++
        (natToLEBytes 8 header.kTBits ++ tail)))).drop 32).drop 8 =
        (szb ++ (zb ++ (natToLEBytes 8 header.amfBits ++
        (natToLEBytes 8 header.kTBits ++ tail)))).drop 40 :=
      List.drop_drop 8 32 _
    rw [← h, hd32]
    exact List.drop_left' (natToLEBytes_length 8 _)
  have hs0 : sliceBytes (szb ++ (zb ++ (natToLEBytes 8 header.amfBits ++
      (natToLEBytes 8 header.kTBits ++ tail)))) 0 16 = szb := by
    unfold sliceBytes
    rw [List.drop_zero]
    exact List.take_left' hszb16
  have hs16 : sliceBytes (szb ++ (zb ++ (natToLEBytes 8 header.amfBits ++
      (natToLEBytes 8 header.kTBits ++ tail)))) 16 32 = zb := by
    unfold sliceBytes
    rw [hd16]
    exact List.take_left' hzb16
  have hs32 : sliceBytes (szb ++ (zb ++ (natToLEBytes 8 header.amfBits ++
      (natToLEBytes 8 header.kTBits ++ tail)))) 32 40 = natToLEBytes 8 header.amfBits := by
    unfold sliceBytes
    rw [hd32]
    exact List.take_left' (natToLEBytes_length 8 _)
  have hs40 : sliceBytes (szb ++ (zb ++ (natToLEBytes 8 header.amfBits ++
      (natToLEBytes 8 header.kTBits ++ tail)))) 40 48 = natToLEBytes 8 header.kTBits := by
    unfold sliceBytes
    rw [hd40]
    exact List.take_left' (natToLEBytes_length 8 _)
  unfold Header.from_PACE
  rw [hs0, hs16, hs32, hs40]
  dsimp only
  rw [leBytesToNat_natToLEBytes8 _ hamf, leBytesToNat_natToLEBytes8 _ hkT,
    hztrim, hstrim]

/-- C1: converting a well-formed ACE text file to PACE and parsing the
result recovers the direct text parse: the header fields (zaid, szaid,
atomic mass fraction and kT bit-exactly), every NXS and JXS integer value,
and every XXS word (integer tokens bit-preserved through the `i64` pattern,
float tokens through their `f64` pattern).  The token lists are the direct
tokenization of the text file; `header` is the output of `Header::from_ACE`
on it, which the conversion reuses. -/
theorem convert_parse_round_trip
    (header : HeaderB) (arrayTokens xxsTokens : List Token)
    (hz16 : header.zaid.length ≤ 16)
    (hzlast : ∀ b, header.zaid.getLast? = some b → isWsByte b = false)
    (hszaid : ∀ s, header.szaid = some s →
      s.length ≤ 16 ∧ s ≠ [] ∧ ∀ b, s.getLast? = some b → isWsByte b = false)
    (hamf : header.amfBits < 2 ^ 64) (hkT : header.kTBits < 2 ^ 64)
    (harrlen : arrayTokens.length = 80)
    (harrwf : ∀ t ∈ arrayTokens, ∃ b, t.wordBits = some b ∧ b < 2 ^ 64)
    (hxxswf : ∀ t ∈ xxsTokens, ∃ b, t.wordBits = some b ∧ b < 2 ^ 64)
    (hxxslen : ∃ t32 n32, arrayTokens[32]? = some t32 ∧ t32.intVal = some n32 ∧
      0 ≤ n32 ∧ n32 < (2 : Int) ^ 56) :
    ∃ bs pd, convert_ACE_to_PACE header arrayTokens xxsTokens = .ok bs ∧
      PaceData.from_PACE bs = .ok pd ∧
      pd.header = header ∧
      (∀ j, j < 16 → ∀ t n, arrayTokens[32 + j]? = some t → t.intVal = some n →
        0 ≤ n → n < (2 : Int) ^ 63 → pd.nxsWords[j]? = some n.toNat) ∧
      (∀ bt t n, arrayTokens[48 + index_from_data_block_type bt]? = some t →
        t.intVal = some n → 0 ≤ n → n < (2 : Int) ^ 63 → pd.jxs bt = n.toNat) ∧
      pd.xxs = xxsTokens.map tokenWordVal := by
  -- the encoded pieces of the output file
  have hszb : ∃ szb,
      (match header.szaid with
       | some v => pad16 v
       | none => .ok (List.replicate 16 32)) = Outcome.ok szb ∧
      szb.length = 16 ∧
      ((if trimAsciiEnd szb = [] then none else some (trimAsciiEnd szb)) =
        header.szaid) := by
    cases hsc : header.szaid with
    | none =>
      refine ⟨List.replicate 16 32, rfl, by simp, ?_⟩
      rw [trimAsciiEnd_replicate]
      simp
    | some s =>
      obtain ⟨hs16, hsne, hslast⟩ := hszaid s hsc
      refine ⟨s ++ List.replicate (16 - s.length) 32, pad16_ok s hs16,
        pad16_out_length s hs16, ?_⟩
      rw [trimAsciiEnd_pad s _ hslast, if_neg hsne]
  obtain ⟨szb, hszbok, hszb16, hsztrim⟩ := hszb
  have hzbok : pad16 header.zaid =
      .ok (header.zaid ++ List.replicate (16 - header.zaid.length) 32) :=
    pad16_ok header.zaid hz16
  have hzb16 : (header.zaid ++ List.replicate (16 - header.zaid.length) 32).length = 16 :=
    pad16_out_length header.zaid hz16
  have hztrim : trimAsciiEnd (header.zaid ++
      List.replicate (16 - header.zaid.length) 32) = header.zaid :=
    trimAsciiEnd_pad header.zaid _ hzlast
  have harrT : traverseOutcome tokenBytesErr arrayTokens =
      .ok (arrayTokens.map tokenChunk) :=
    traverseOutcome_map _ _ _ (fun t ht => tokenBytesErr_ok t (harrwf t ht))
  have hxxsT : traverseOutcome tokenBytesPanic xxsTokens =
      .ok (xxsTokens.map tokenChunk) :=
    traverseOutcome_map _ _ _ (fun t ht => tokenBytesPanic_ok t (hxxswf t ht))
  -- shorthand for the body regions
  have hchunks8 : ∀ (ts : List Token) (ch : List Nat),
      ch ∈ ts.map tokenChunk → ch.length = 8 := by
    intro ts ch hch
    obtain ⟨t, _, ht⟩ := List.mem_map.mp hch
    rw [← ht]
    exact tokenChunk_length t
  have hAlen : (arrayTokens.map tokenChunk).flatten.length = 640 := by
    rw [join_length8 _ (hchunks8 arrayTokens)]
    simp [harrlen]
  have hXlen : (xxsTokens.map tokenChunk).flatten.length = 8 * xxsTokens.length := by
    rw [join_length8 _ (hchunks8 xxsTokens)]
    simp
  -- token sub-lists and their encoded regions
  have harr_split1 : arrayTokens.take 32 ++ arrayTokens.drop 32 = arrayTokens :=
    List.take_append_drop 32 arrayTokens
  have harr_split2 : (arrayTokens.drop 32).take 16 ++ (arrayTokens.drop 32).drop 16 =
      arrayTokens.drop 32 :=
    List.take_append_drop 16 (arrayTokens.drop 32)
  have hd4832 : (arrayTokens.drop 32).drop 16 = arrayTokens.drop 48 :=
    List.drop_drop 16 32 arrayTokens
  have hA : (arrayTokens.map tokenChunk).flatten =
      ((arrayTokens.take 32).map tokenChunk).flatten ++
      ((((arrayTokens.drop 32).take 16).map tokenChunk).flatten ++
        ((arrayTokens.drop 48).map tokenChunk).flatten) := by
    conv_lhs => rw [← harr_split1]
    rw [List.map_append, List.flatten_append]
    congr 1
    conv_lhs => rw [← harr_split2]
    rw [List.map_append, List.flatten_append, hd4832]
  have hIlen : ((arrayTokens.take 32).map tokenChunk).flatten.length = 256 := by
    rw [join_length8 _ (hchunks8 _)]
    simp [harrlen]
  have hNlen : ((((arrayTokens.drop 32).take 16)).map tokenChunk).flatten.length = 128 := by
    rw [join_length8 _ (hchunks8 _)]
    simp [harrlen]
  have hJlen : ((arrayTokens.drop 48).map tokenChunk).flatten.length = 256 := by
    rw [join_length8 _ (hchunks8 _)]
    simp [harrlen]
  -- the full output byte string
  set zb : List Nat :=
    header.zaid ++ List.replicate (16 - header.zaid.length) 32 with hzbdef
  set A : List Nat := (arrayTokens.map tokenChunk).flatten with hAdef
  set X : List Nat := (xxsTokens.map tokenChunk).flatten with hXdef
  set bs : List Nat := szb ++ (zb ++ (natToLEBytes 8 header.amfBits ++
    (natToLEBytes 8 header.kTBits ++ (A ++ X)))) with hbsdef
  have hconv : convert_ACE_to_PACE header arrayTokens xxsTokens = .ok bs := by
    unfold convert_ACE_to_PACE
    rw [hszbok, hzbok, harrT, hxxsT]
    simp only [Outcome.bind]
  -- region decomposition of the output
  have hd16 : bs.drop 16 = zb ++ (natToLEBytes 8 header.amfBits ++
      (natToLEBytes 8 header.kTBits ++ (A ++ X))) := by
    rw [hbsdef]
    exact List.drop_left' hszb16
  have hd32 : bs.drop 32 = natToLEBytes 8 header.amfBits ++
      (natToLEBytes 8 header.kTBits ++ (A ++ X)) := by
    have h : (bs.drop 16).drop 16 = bs.drop 32 := List.drop_drop 16 16 bs
    rw [← h, hd16]
    exact List.drop_left' hzb16
  have hd40 : bs.drop 40 = natToLEBytes 8 header.kTBits ++ (A ++ X) := by
    have h : (bs.drop 32).drop 8 = bs.drop 40 := List.drop_drop 8 32 bs
    rw [← h, hd32]
    exact List.drop_left' (natToLEBytes_length 8 _)
  have hd48 : bs.drop 48 = A ++ X := by
    have h : (bs.drop 40).drop 8 = bs.drop 48 := List.drop_drop 8 40 bs
    rw [← h, hd40]
    exact List.drop_left' (natToLEBytes_length 8 _)
  have hd304 : bs.drop 304 = (((arrayTokens.drop 32).take 16).map tokenChunk).flatten ++
      (((arrayTokens.drop 48).map tokenChunk).flatten ++ X) := by
    have h : (bs.drop 48).drop 256 = bs.drop 304 := List.drop_drop 256 48 bs
    rw [← h, hd48, hA, List.append_assoc, List.append_assoc]
    exact List.drop_left' hIlen
  have hd432 : bs.drop 432 = ((arrayTokens.drop 48).map tokenChunk).flatten ++ X := by
    have h : (bs.drop 304).drop 128 = bs.drop 432 := List.drop_drop 128 304 bs
    rw [← h, hd304]
    exact List.drop_left' hNlen
  have hd688 : bs.drop 688 = X := by
    have h : (bs.drop 432).drop 256 = bs.drop 688 := List.drop_drop 256 432 bs
    rw [← h, hd432]
    exact List.drop_left' hJlen
  have hsliceN : sliceBytes bs 304 432 =
      (((arrayTokens.drop 32).take 16).map tokenChunk).flatten := by
    unfold sliceBytes
    rw [hd304]
    exact List.take_left' hNlen
  have hsliceJ : sliceBytes bs 432 688 =
      ((arrayTokens.drop 48).map tokenChunk).flatten := by
    unfold sliceBytes
    rw [hd432]
    exact List.take_left' hJlen
  -- decoded word lists of the three regions
  have hwf_sub : ∀ (ts : List Token), (∀ t ∈ ts, t ∈ arrayTokens) →
      wordsOf ((ts.map tokenChunk).flatten) = ts.map tokenWordVal := by
    intro ts hsub
    rw [wordsOf_join8 _ (hchunks8 ts), List.map_map]
    refine List.map_congr_left ?_
    intro t ht
    exact leBytes_tokenChunk t (harrwf t (hsub t ht))
  have hNwords : wordsOf ((((arrayTokens.drop 32).take 16)).map tokenChunk).flatten =
      ((arrayTokens.drop 32).take 16).map tokenWordVal := by
    refine hwf_sub _ ?_
    intro t ht
    exact List.drop_subset 32 arrayTokens (List.take_subset 16 _ ht)
  have hJwords : wordsOf (((arrayTokens.drop 48)).map tokenChunk).flatten =
      (arrayTokens.drop 48).map tokenWordVal := by
    refine hwf_sub _ ?_
    intro t ht
    exact List.drop_subset 48 arrayTokens ht
  have hXwords : wordsOf X = xxsTokens.map tokenWordVal := by
    rw [hXdef, wordsOf_join8 _ (hchunks8 xxsTokens), List.map_map]
    refine List.map_congr_left ?_
    intro t ht
    exact leBytes_tokenChunk t (hxxswf t ht)
  -- the ASCII sniff sees the zero high byte of the xxs_len word
  obtain ⟨t32, n32, ht32, hn32i, hn32nonneg, hn32lt⟩ := hxxslen
  have hbyteA : A[263]? = some 0 := by
    have h263 : (263 : Nat) = 8 * 32 + 7 := by norm_num
    rw [hAdef, h263, join8_getElem _ (hchunks8 arrayTokens) 32 7 (by omega)]
    rw [List.getElem?_map, ht32]
    simp only [Option.map_some', Option.some_bind]
    unfold tokenChunk
    have hval : tokenWordVal t32 = n32.toNat := by
      unfold tokenWordVal Token.wordBits
      rw [hn32i]
      simp only [Option.getD_some]
      exact i64Bits_of_nonneg n32 hn32nonneg (by omega)
    rw [hval]
    exact natToLEBytes8_last_zero _ (by omega)
  have hbyte311 : bs[311]? = some 0 := by
    have h : (bs.drop 48)[263]? = bs[48 + 263]? := List.getElem?_drop bs 48 263
    have h311 : (48 + 263 : Nat) = 311 := by norm_num
    rw [h311] at h
    rw [← h, hd48]
    rw [List.getElem?_append_left (by omega)]
    exact hbyteA
  have hbslen : 688 ≤ bs.length := by
    rw [hbsdef]
    simp only [List.length_append, hszb16, hzb16, natToLEBytes_length]
    omega
  have hascii : is_ascii_file bs = false := by
    have htk311 : (bs.take 1024)[311]? = some 0 := by
      rw [List.getElem?_take, if_pos (by omega)]
      exact hbyte311
    have hmem : (0 : Nat) ∈ bs.take 1024 := by
      obtain ⟨hl, hg⟩ := List.getElem?_eq_some.mp htk311
      exact hg ▸ List.getElem_mem hl
    have hany : (bs.take 1024).any
        (fun b => 128 ≤ b || (b < 32 && ! (b = 9 || b = 10 || b = 13))) = true :=
      List.any_eq_true.mpr ⟨0, hmem, by decide⟩
    cases htake : bs.take 1024 with
    | nil =>
      have : bs.take 1024 ≠ [] := by
        rw [ne_eq, List.take_eq_nil_iff]
        push_neg
        constructor
        · omega
        · intro hbsnil
          rw [hbsnil] at hbslen
          simp at hbslen
      exact absurd htake this
    | cons b tl =>
      rw [htake] at hany
      simp only [is_ascii_file, htake, hany]
      rfl
  have hparse : PaceData.from_PACE bs =
      .ok { header := Header.from_PACE bs
            nxsWords := wordsOf (sliceBytes bs 304 432)
            nxs_array := NxsArray.from_PACE (wordsOf (sliceBytes bs 304 432))
            jxs := fun bt =>
              (wordsOf (sliceBytes bs 432 688)).getD (index_from_data_block_type bt) 0
            xxs := wordsOf (bs.drop 688) } := by
    unfold PaceData.from_PACE
    rw [hascii]
    simp only [Bool.false_eq_true, if_false]
    rw [if_neg (by omega)]
  have hheader : Header.from_PACE bs = header := by
    rw [hbsdef]
    exact from_PACE_header_section header szb zb
      (A ++ X) hszb16 hzb16 hztrim hsztrim hamf hkT
  refine ⟨bs, _, hconv, hparse, ?_, ?_, ?_, ?_⟩
  · exact hheader
  · -- NXS values
    intro j hj t n hjt hint hn0 hnlt
    show (wordsOf (sliceBytes bs 304 432))[j]? = some n.toNat
    rw [hsliceN, hNwords]
    have hjt' : ((arrayTokens.drop 32).take 16)[j]? = some t := by
      rw [List.getElem?_take, if_pos hj, List.getElem?_drop]
      exact hjt
    rw [List.getElem?_map, hjt']
    simp only [Option.map_some', Option.some.injEq]
    unfold tokenWordVal Token.wordBits
    rw [hint]
    simp only [Option.getD_some]
    exact i64Bits_of_nonneg n hn0 hnlt
  · -- JXS values
    intro bt t n hload hint hn0 hnlt
    show (wordsOf (sliceBytes bs 432 688)).getD (index_from_data_block_type bt) 0 =
      n.toNat
    rw [hsliceJ, hJwords]
    have hload' : (arrayTokens.drop 48)[index_from_data_block_type bt]? = some t := by
      rw [List.getElem?_drop]
      exact hload
    rw [List.getD_eq_getElem?_getD, List.getElem?_map, hload']
    simp only [Option.map_some', Option.getD_some]
    unfold tokenWordVal Token.wordBits
    rw [hint]
    simp only [Option.getD_some]
    exact i64Bits_of_nonneg n hn0 hnlt
  · -- XXS words
    show wordsOf (bs.drop 688) = xxsTokens.map tokenWordVal
    rw [hd688]
    exact hXwords

def c1Header : HeaderB := ⟨[49, 49, 48, 48], some [49, 48, 48], 5, 7⟩

def c1ArrayTokens : List Token := List.replicate 80 ⟨some 3, none⟩

def c1XxsTokens : List Token := [⟨none, some 12345⟩, ⟨some 9, none⟩]

/-- Witness for C1 at a concrete four-byte ZAID, three-byte SZAID, 80
integer array tokens and a two-token XXS stream (one float, one integer). -/
theorem convert_parse_round_trip_witness :
    c1Header.zaid.length ≤ 16 ∧
    (∀ b, c1Header.zaid.getLast? = some b → isWsByte b = false) ∧
    (∀ s, c1Header.szaid = some s →
      s.length ≤ 16 ∧ s ≠ [] ∧ ∀ b, s.getLast? = some b → isWsByte b = false) ∧
    c1Header.amfBits < 2 ^ 64 ∧ c1Header.kTBits < 2 ^ 64 ∧
    c1ArrayTokens.length = 80 ∧
    (∀ t ∈ c1ArrayTokens, ∃ b, t.wordBits = some b ∧ b < 2 ^ 64) ∧
    (∀ t ∈ c1XxsTokens, ∃ b, t.wordBits = some b ∧ b < 2 ^ 64) ∧
    (∃ t32 n32, c1ArrayTokens[32]? = some t32 ∧ t32.intVal = some n32 ∧
      0 ≤ n32 ∧ n32 < (2 : Int) ^ 56) ∧
    (∃ bs pd, convert_ACE_to_PACE c1Header c1ArrayTokens c1XxsTokens = .ok bs ∧
      PaceData.from_PACE bs = .ok pd ∧
      pd.header = c1Header ∧
      (∀ j, j < 16 → ∀ t n, c1ArrayTokens[32 + j]? = some t → t.intVal = some n →
        0 ≤ n → n < (2 : Int) ^ 63 → pd.nxsWords[j]? = some n.toNat) ∧
      (∀ bt t n, c1ArrayTokens[48 + index_from_data_block_type bt]? = some t →
        t.intVal = some n → 0 ≤ n → n < (2 : Int) ^ 63 → pd.jxs bt = n.toNat) ∧
      pd.xxs = c1XxsTokens.map tokenWordVal) := by
  have h1 : c1Header.zaid.length ≤ 16 := by decide
  have h2 : ∀ b, c1Header.zaid.getLast? = some b → isWsByte b = false := by
    intro b h
    have hb : (48 : Nat) = b := by simpa [c1Header] using h
    rw [← hb]
    rfl
  have h3 : ∀ s, c1Header.szaid = some s →
      s.length ≤ 16 ∧ s ≠ [] ∧ ∀ b, s.getLast? = some b → isWsByte b = false := by
    intro s hs
    have hseq : [49, 48, 48] = s := by simpa [c1Header] using hs
    subst hseq
    refine ⟨by decide, by decide, ?_⟩
    intro b h
    have hb : (48 : Nat) = b := by simpa using h
    rw [← hb]
    rfl
  have h4 : c1Header.amfBits < 2 ^ 64 := by decide
  have h5 : c1Header.kTBits < 2 ^ 64 := by decide
  have h6 : c1ArrayTokens.length = 80 := by decide
  have h7 : ∀ t ∈ c1ArrayTokens, ∃ b, t.wordBits = some b ∧ b < 2 ^ 64 := by
    intro t ht
    have := List.eq_of_mem_replicate ht
    subst this
    exact ⟨i64Bits 3, rfl, i64Bits_lt 3⟩
  have h8 : ∀ t ∈ c1XxsTokens, ∃ b, t.wordBits = some b ∧ b < 2 ^ 64 := by
    intro t ht
    simp [c1XxsTokens] at ht
    rcases ht with ht | ht <;> subst ht
    · exact ⟨12345, rfl, by decide⟩
    · exact ⟨i64Bits 9, rfl, i64Bits_lt 9⟩
  have h9 : ∃ t32 n32, c1ArrayTokens[32]? = some t32 ∧ t32.intVal = some n32 ∧
      0 ≤ n32 ∧ n32 < (2 : Int) ^ 56 :=
    ⟨⟨some 3, none⟩, 3, by decide, rfl, by decide, by decide⟩
  exact ⟨h1, h2, h3, h4, h5, h6, h7, h8, h9,
    convert_parse_round_trip c1Header c1ArrayTokens c1XxsTokens
      h1 h2 h3 h4 h5 h6 h7 h8 h9⟩

/-- One whitespace token of an ACE header line: its text and the result of
`parse::<f64>()` on it (as IEEE bits), when it parses. -/
structure TextToken where
  text : List Nat
  floatBits : Option Nat
deriving DecidableEq

/-- The textual input that `Header::from_ACE` consumes: whether the first
line contains "2.0." (the version-2 marker), the whitespace tokens of the
first line, and the whitespace tokens of the first legacy-header line (line
3, read only for version-2 files). -/
structure AceHeaderLines where
  line1_has_version_2_0 : Bool
  line1_tokens : List TextToken
  line3_tokens : List TextToken
deriving DecidableEq

/-- `Header::from_ACE`: on a version-2 header take the SZAID from token 1 of
line 1 and the legacy data from line 3, otherwise everything from line 1;
the ZAID is token 0 (indexing panics when absent), the atomic mass fraction
and kT are the `f64` parses of tokens 1 and 2 (`?`-propagated errors). -/
def Header.from_ACE (inp : AceHeaderLines) : Outcome HeaderB :=
  let szaid := if inp.line1_has_version_2_0 then
    (inp.line1_tokens[1]?).map TextToken.text else none
  let legacy := if inp.line1_has_version_2_0 then inp.line3_tokens
    else inp.line1_tokens
  match legacy[0]? with
  | none => .crash "index out of bounds"
  | some z =>
    match legacy[1]? with
    | none => .crash "index out of bounds"
    | some t1 =>
      match t1.floatBits with
      | none => .fail "invalid float literal"
      | some amf =>
        match legacy[2]? with
        | none => .crash "index out of bounds"
        | some t2 =>
          match t2.floatBits with
          | none => .fail "invalid float literal"
          | some kT => .ok ⟨z.text, szaid, amf, kT⟩

def c8Input : AceHeaderLines :=
  ⟨true,
   [⟨[50, 46, 48, 46, 49], none⟩, ⟨[49, 49, 48, 48], none⟩],
   [⟨[122, 97, 105, 100], none⟩, ⟨[57], some 7⟩, ⟨[56], some 9⟩]⟩

/-- Counterexample to C8: a version-2.0 header yields a header whose zaid
AND szaid are both non-empty (exactly as the repository's own
`test_2_0_1_header_parsing` expects), contradicting the claimed
"exactly one of the two identifiers is non-empty" invariant. -/
theorem header_both_identifiers_counterexample :
    Header.from_ACE c8Input = .ok ⟨[122, 97, 105, 100], some [49, 49, 48, 48], 7, 9⟩ ∧
    ([122, 97, 105, 100] : List Nat) ≠ [] ∧
    ([49, 49, 48, 48] : List Nat) ≠ [] :=
  ⟨rfl, by decide, by decide⟩

/-- C8 amended: a header successfully parsed from ACE text always has a
non-empty zaid; on both parse paths the szaid is either absent or
non-empty; both identifiers may be non-empty simultaneously. -/
theorem header_identifier_nonempty (inp : AceHeaderLines)
    (h1 : ∀ t ∈ inp.line1_tokens, t.text ≠ [])
    (h3 : ∀ t ∈ inp.line3_tokens, t.text ≠ [])
    (h : HeaderB) (hok : Header.from_ACE inp = .ok h) :
    (h.zaid ≠ [] ∧ ∀ s, h.szaid = some s → s ≠ []) ∧
    (∀ bs s, (Header.from_PACE bs).szaid = some s → s ≠ []) := by
  constructor
  · unfold Header.from_ACE at hok
    dsimp only at hok
    cases hz : (if inp.line1_has_version_2_0 then inp.line3_tokens
        else inp.line1_tokens)[0]? with
    | none => rw [hz] at hok; cases hok
    | some z =>
      rw [hz] at hok
      dsimp only at hok
      cases ht1 : (if inp.line1_has_version_2_0 then inp.line3_tokens
          else inp.line1_tokens)[1]? with
      | none => rw [ht1] at hok; cases hok
      | some t1 =>
        rw [ht1] at hok
        dsimp only at hok
        cases hb1 : t1.floatBits with
        | none => rw [hb1] at hok; cases hok
        | some amf =>
          rw [hb1] at hok
          dsimp only at hok
          cases ht2 : (if inp.line1_has_version_2_0 then inp.line3_tokens
              else inp.line1_tokens)[2]? with
          | none => rw [ht2] at hok; cases hok
          | some t2 =>
            rw [ht2] at hok
            dsimp only at hok
            cases hb2 : t2.floatBits with
            | none => rw [hb2] at hok; cases hok
            | some kT =>
              rw [hb2] at hok
              dsimp only at hok
              have hh : h = ⟨z.text,
                  if inp.line1_has_version_2_0 then
                    (inp.line1_tokens[1]?).map TextToken.text else none,
                  amf, kT⟩ := by
                cases hok
                rfl
              subst hh
              constructor
              · -- zaid is a whitespace token, hence non-empty
                show z.text ≠ []
                by_cases hv : inp.line1_has_version_2_0
                · rw [if_pos hv] at hz
                  exact h3 z (mem_of_getElem? hz)
                · rw [if_neg hv] at hz
                  exact h1 z (mem_of_getElem? hz)
              · intro s hs
                by_cases hv : inp.line1_has_version_2_0
                · rw [if_pos hv] at hs
                  obtain ⟨t, ht, hts⟩ := Option.map_eq_some'.mp hs
                  rw [← hts]
                  exact h1 t (mem_of_getElem? ht)
                · rw [if_neg hv] at hs
                  cases hs
  · intro bs s hs
    unfold Header.from_PACE at hs
    dsimp only at hs
    by_cases he : trimAsciiEnd (sliceBytes bs 0 16) = []
    · rw [if_pos he] at hs
      cases hs
    · rw [if_neg he] at hs
      have : trimAsciiEnd (sliceBytes bs 0 16) = s := by simpa using hs
      rw [← this]
      exact he

/-- Witness for the amended C8 at the concrete version-2.0 input of the
counterexample. -/
theorem header_identifier_nonempty_witness :
    (∀ t ∈ c8Input.line1_tokens, t.text ≠ []) ∧
    (∀ t ∈ c8Input.line3_tokens, t.text ≠ []) ∧
    Header.from_ACE c8Input =
      .ok ⟨[122, 97, 105, 100], some [49, 49, 48, 48], 7, 9⟩ ∧
    ((([122, 97, 105, 100] : List Nat) ≠ [] ∧
      ∀ s, (some [49, 49, 48, 48] : Option (List Nat)) = some s → s ≠ []) ∧
     (∀ bs s, (Header.from_PACE bs).szaid = some s → s ≠ [])) := by
  have h1 : ∀ t ∈ c8Input.line1_tokens, t.text ≠ [] := by decide
  have h3 : ∀ t ∈ c8Input.line3_tokens, t.text ≠ [] := by decide
  exact ⟨h1, h3, rfl,
    header_identifier_nonempty c8Input h1 h3
      ⟨[122, 97, 105, 100], some [49, 49, 48, 48], 7, 9⟩ rfl⟩

end Pace
